import Mathlib

/-!
Shallow embedding of the xiaohai bootstrapper (crates/xiaohai-bootstrapper/src/main.rs)
together with the parts of xiaohai-core (manifest.rs, state.rs, paths.rs) and
xiaohai-windows (registry.rs, prereq.rs, elevation.rs, firewall.rs) that it calls.

Modelling conventions:
- A Windows path string is embedded as `Path`: an absoluteness flag plus the list
  of components.  `PathBuf::from("")` is `⟨false, []⟩`.
- The filesystem is a tree of directories and files (`FsNode`); file contents are
  `FileData`, where a file holding the JSON serialization of a manifest / state
  document / plugin artifact stores the parsed value directly (serde round-trip is
  external library code and assumed faithful).
- The registry is an association list from (hive, subkey path) to value lists.
- External collaborators whose sources are not part of the bootstrapper's own
  logic (process spawning, service manager, shortcut shell API, netsh firewall)
  are oracle functions stored in the `World`; their outcomes are `Except` values
  exactly as the spec's SystemMutator / ProcessRunner interface declares.
- Every embedded effectful function takes a `World` and returns
  `Except Err α × World × List Event`; the event list is the observable trace
  (module markers, installer invocations, removal attempts, the state write).
  Rust `?` corresponds to the explicit error short-circuit in each `match`.
-/

/-- A filesystem path: absoluteness flag plus components. -/
structure FPath where
  absolute : Bool
  comps : List String
deriving DecidableEq, Repr

namespace FPath

/-- PathBuf::join p q: if q is absolute it replaces p, else components append. -/
def join (p q : FPath) : FPath :=
  if q.absolute then q else ⟨p.absolute, p.comps ++ q.comps⟩

/-- Join a single (relative) component, as PathBuf::join with a plain name. -/
def join1 (p : FPath) (c : String) : FPath :=
  ⟨p.absolute, p.comps ++ [c]⟩

/-- Path::parent: drop the last component; none at a root/empty path. -/
def parent (p : FPath) : Option FPath :=
  match p.comps with
  | [] => none
  | _ :: _ => some ⟨p.absolute, p.comps.dropLast⟩

/-- The empty path string maps to the relative path with no components. -/
def isEmptyStr (p : FPath) : Bool :=
  !p.absolute && p.comps.isEmpty

end FPath

/-- Registry root key (manifest.rs RegistryHive). -/
inductive RegistryHive where
  | hklm
  | hkcu
deriving DecidableEq, Repr

/-- Registry value type declared by a detection rule (manifest.rs RegistryValueKind). -/
inductive RegistryValueKind where
  | dword
  | sz
deriving DecidableEq, Repr

/-- Expected-value comparison of a registry detection rule (manifest.rs). -/
inductive RegistryExpectedValue where
  | dwordAtLeast (min : Nat)
  | dwordEquals (eq : Nat)
  | szEquals (eq : String)
deriving DecidableEq, Repr

/-- Registry detection rule (manifest.rs RegistryValueRule). -/
structure RegistryValueRule where
  hive : RegistryHive
  key : String
  value_name : String
  kind : RegistryValueKind
  expected : RegistryExpectedValue
deriving DecidableEq, Repr

/-- File-existence detection rule (manifest.rs FileExistsRule). -/
structure FileExistsRule where
  path : FPath
deriving DecidableEq, Repr

/-- Detection rule (manifest.rs DetectRule). -/
inductive DetectRule where
  | noRule
  | registryValue (rule : RegistryValueRule)
  | fileExists (rule : FileExistsRule)
deriving DecidableEq, Repr

/-- External installer / uninstaller descriptor (manifest.rs PayloadInstaller). -/
structure PayloadInstaller where
  path : FPath
  args : List String
  success_exit_codes : List Int
deriving DecidableEq, Repr

/-- FileCopy payload descriptor (manifest.rs ModulePayload). -/
structure ModulePayload where
  path : FPath
  install_subdir : Option String
deriving DecidableEq, Repr

/-- Module kind (manifest.rs ModuleKind). -/
inductive ModuleKind where
  | msi
  | exe
  | fileCopy
deriving DecidableEq, Repr

/-- format!("{:?}", kind) as recorded into the install state. -/
def kindStr : ModuleKind → String
  | .msi => "Msi"
  | .exe => "Exe"
  | .fileCopy => "FileCopy"

/-- Plugin health check strategy (manifest.rs Healthcheck). -/
inductive Healthcheck where
  | process
  | pipe (name : String)
  | http (url : String)
deriving DecidableEq, Repr

/-- Plugin registration descriptor (manifest.rs PluginRegistration). -/
structure PluginRegistration where
  id : String
  name : String
  exe : String
  args : List String
  icon : Option String
  healthcheck : Option Healthcheck
deriving DecidableEq, Repr

/-- Text substitution pair (manifest.rs KeyValue). -/
structure KeyValue where
  key : String
  value : String
deriving DecidableEq, Repr

/-- Config-file replacement rule (manifest.rs FileReplacement). -/
structure FileReplacement where
  file : FPath
  replacements : List KeyValue
deriving DecidableEq, Repr

/-- Module post-install configuration (manifest.rs ModuleConfig). -/
structure ModuleConfig where
  server_url : Option String
  data_subdir : Option String
  file_replacements : List FileReplacement
deriving DecidableEq, Repr

/-- One module of the bundle (manifest.rs ModuleManifest). -/
structure ModuleManifest where
  id : String
  display_name : String
  enabled : Bool
  kind : ModuleKind
  detect : DetectRule
  payload : Option ModulePayload
  installer : Option PayloadInstaller
  uninstaller : Option PayloadInstaller
  remove_desktop_shortcuts : List String
  plugin : Option PluginRegistration
  config : ModuleConfig
deriving DecidableEq, Repr

/-- One prerequisite (manifest.rs PrerequisiteItem). -/
structure PrerequisiteItem where
  enabled : Bool
  installer : Option PayloadInstaller
deriving DecidableEq, Repr

/-- Prerequisite list (manifest.rs PrerequisitesManifest). -/
structure PrerequisitesManifest where
  dotnet_fx48 : PrerequisiteItem
  vcredist_2015_2022_x64 : PrerequisiteItem
deriving DecidableEq, Repr

/-- Shortcut governance configuration (manifest.rs ShortcutManifest). -/
structure ShortcutManifest where
  assistant_exe : FPath
  assistant_name : String
  icon_path : Option FPath
  start_menu : Bool
  desktop : Bool
deriving DecidableEq, Repr

/-- Global post-install configuration (manifest.rs PostConfigManifest). -/
structure PostConfigManifest where
  server_url : Option String
  data_root : Option FPath
  plugin_dir : Option FPath
deriving DecidableEq, Repr

/-- One firewall rule (manifest.rs FirewallRule; direction/action/profile elided
    strings are kept as declared data). -/
structure FirewallRule where
  name : String
  program : String
deriving DecidableEq, Repr

/-- Firewall configuration (manifest.rs FirewallManifest). -/
structure FirewallManifest where
  enabled : Bool
  rules : List FirewallRule
deriving DecidableEq, Repr

/-- Windows service configuration (manifest.rs ServiceManifest). -/
structure ServiceManifest where
  enabled : Bool
  name : String
  display_name : String
  description : String
  exe : FPath
  args : List String
deriving DecidableEq, Repr

/-- Autorun (HKLM Run) configuration (manifest.rs AutorunManifest). -/
structure AutorunManifest where
  enabled : Bool
  name : String
  command : String
deriving DecidableEq, Repr

/-- The deployment manifest root (manifest.rs BundleManifest). -/
structure BundleManifest where
  product_name : String
  product_code : String
  version : String
  install_root : FPath
  prerequisites : PrerequisitesManifest
  modules : List ModuleManifest
  shortcuts : ShortcutManifest
  post_config : PostConfigManifest
  firewall : FirewallManifest
  service : ServiceManifest
  autorun : AutorunManifest
deriving DecidableEq, Repr

/-- Installed-module record (state.rs InstalledModule). -/
structure InstalledModule where
  id : String
  display_name : String
  kind : String
  installed : Bool
  install_root : Option FPath
  uninstall_hint : Option String
deriving DecidableEq, Repr

/-- Created-shortcut record (state.rs CreatedShortcut). -/
structure CreatedShortcut where
  location : String
  path : FPath
deriving DecidableEq, Repr

/-- Install state document (state.rs InstallState); the uuid and timestamp are
    abstracted as naturals drawn from the world. -/
structure InstallState where
  state_id : Nat
  product_code : String
  version : String
  installed_at : Nat
  modules : List InstalledModule
  created_shortcuts : List CreatedShortcut
  firewall_rules : List String
  service_name : Option String
  autorun_name : Option String
deriving DecidableEq, Repr

/-- InstallState::new (state.rs): fresh identifiers, empty logs. -/
def InstallState.new (uuid now : Nat) (product_code version : String) : InstallState :=
  ⟨uuid, product_code, version, now, [], [], [], none, none⟩

/-- A written plugin registration artifact: the registration with the owning
    module id injected (write_plugins in main.rs). -/
structure PluginArtifact where
  reg : PluginRegistration
  module_id : String
deriving DecidableEq, Repr

/-- Contents of a file; JSON documents of known shape store the parsed value. -/
inductive FileData where
  | text (s : String)
  | manifestJson (m : BundleManifest)
  | stateJson (st : InstallState)
  | pluginJson (a : PluginArtifact)
deriving DecidableEq, Repr

/-- A filesystem node: a file with data, or a directory with named entries. -/
inductive FsNode where
  | file (d : FileData)
  | dir (entries : List (String × FsNode))
deriving Repr

/-- First entry with the given name (directory entry lookup). -/
def findEntry : List (String × FsNode) → String → Option FsNode
  | [], _ => none
  | (k, v) :: rest, c => if k = c then some v else findEntry rest c

/-- Replace the first entry with the given name, or append a new one. -/
def setEntry : List (String × FsNode) → String → FsNode → List (String × FsNode)
  | [], c, n => [(c, n)]
  | (k, v) :: rest, c, n => if k = c then (c, n) :: rest else (k, v) :: setEntry rest c n

/-- Remove all entries with the given name. -/
def removeEntry (es : List (String × FsNode)) (c : String) : List (String × FsNode) :=
  es.filter (fun e => e.1 ≠ c)

/-- Resolve a component list inside a node. -/
def nodeLookup : FsNode → List String → Option FsNode
  | n, [] => some n
  | .file _, _ :: _ => none
  | .dir es, c :: cs =>
    match findEntry es c with
    | some n => nodeLookup n cs
    | none => none

/-- Write a node at a path, creating missing intermediate directories
    (a file standing in the way blocks the write, as the OS call would fail). -/
def nodeWrite : FsNode → List String → FsNode → FsNode
  | _, [], n => n
  | .file d, _ :: _, _ => .file d
  | .dir es, c :: cs, n =>
    let child := (findEntry es c).getD (.dir [])
    .dir (setEntry es c (nodeWrite child cs n))

/-- create_dir_all: create missing directories along the path, keep what exists
    (a file standing in the way blocks, as the OS call would fail). -/
def nodeEnsureDir : FsNode → List String → FsNode
  | n, [] => n
  | .file d, _ :: _ => .file d
  | .dir es, c :: cs =>
    let child := (findEntry es c).getD (.dir [])
    .dir (setEntry es c (nodeEnsureDir child cs))

/-- Remove the subtree at a path (remove_file / remove_dir_all; no-op if absent). -/
def nodeRemove : FsNode → List String → FsNode
  | n, [] => n
  | .file d, _ :: _ => .file d
  | .dir es, [c] => .dir (removeEntry es c)
  | .dir es, c :: cs :: cs2 =>
    match findEntry es c with
    | some child => .dir (setEntry es c (nodeRemove child (cs :: cs2)))
    | none => .dir es

/-- A filesystem: one tree for absolute paths, one for relative paths
    (relative paths resolve against the process working directory). -/
structure FS where
  absRoot : FsNode
  relRoot : FsNode

namespace FS

def root (fs : FS) (abs : Bool) : FsNode :=
  if abs then fs.absRoot else fs.relRoot

def setRoot (fs : FS) (abs : Bool) (n : FsNode) : FS :=
  if abs then ⟨n, fs.relRoot⟩ else ⟨fs.absRoot, n⟩

def lookup (fs : FS) (p : FPath) : Option FsNode :=
  nodeLookup (fs.root p.absolute) p.comps

def existsPath (fs : FS) (p : FPath) : Bool :=
  (fs.lookup p).isSome

def isFile (fs : FS) (p : FPath) : Bool :=
  match fs.lookup p with
  | some (.file _) => true
  | _ => false

def write (fs : FS) (p : FPath) (n : FsNode) : FS :=
  fs.setRoot p.absolute (nodeWrite (fs.root p.absolute) p.comps n)

def ensureDir (fs : FS) (p : FPath) : FS :=
  fs.setRoot p.absolute (nodeEnsureDir (fs.root p.absolute) p.comps)

def remove (fs : FS) (p : FPath) : FS :=
  fs.setRoot p.absolute (nodeRemove (fs.root p.absolute) p.comps)

end FS

/-- A stored registry value. -/
inductive RegValue where
  | dword (v : Nat)
  | sz (s : String)
deriving DecidableEq, Repr

/-- The values of one registry key. -/
abbrev RegKeyVals := List (String × RegValue)

/-- The registry: association list keyed by (hive, subkey path). -/
abbrev Reg := List ((RegistryHive × String) × RegKeyVals)

/-- Open a key (RegKey::open_subkey). -/
def regFind : Reg → RegistryHive → String → Option RegKeyVals
  | [], _, _ => none
  | ((h0, k0), vs) :: rest, h, k =>
    if h0 = h ∧ k0 = k then some vs else regFind rest h k

/-- Find a value inside a key. -/
def valFind : RegKeyVals → String → Option RegValue
  | [], _ => none
  | (n0, v) :: rest, n => if n0 = n then some v else valFind rest n

/-- Replace or append a value inside a key. -/
def valSet : RegKeyVals → String → RegValue → RegKeyVals
  | [], n, v => [(n, v)]
  | (n0, v0) :: rest, n, v =>
    if n0 = n then (n, v) :: rest else (n0, v0) :: valSet rest n v

/-- Remove a value inside a key. -/
def valRemove (vs : RegKeyVals) (n : String) : RegKeyVals :=
  vs.filter (fun e => e.1 ≠ n)

/-- Update (or create) a whole key. -/
def regSet : Reg → RegistryHive → String → RegKeyVals → Reg
  | [], h, k, vs => [((h, k), vs)]
  | ((h0, k0), vs0) :: rest, h, k, vs =>
    if h0 = h ∧ k0 = k then ((h, k), vs) :: rest
    else ((h0, k0), vs0) :: regSet rest h k vs

/-- Errors, mirroring the anyhow error values raised by the source. -/
inductive Err where
  | needAdmin
  | manifestMissing (p : FPath)
  | manifestParse
  | emptyPath
  | envProgramData
  | missingInstallerCfg (id : String)
  | missingPayloadCfg (id : String)
  | prereqMissingInstallerCfg (which : String)
  | spawnFailed (exe : FPath)
  | badExitCode (exe : FPath) (code : Int) (stdout stderr : String)
  | regOpenFailed (hive : RegistryHive) (key : String)
  | regReadFailed (value_name : String)
  | stateParse
  | readDirFailed (p : FPath)
  | readFileFailed (p : FPath)
  | mutatorFailed (what : String)
deriving DecidableEq, Repr

/-- Outcome of spawning an external process (ProcessRunner oracle).
    `ran none _ _` is a child terminated without an exit code. -/
inductive ProcResult where
  | spawnErr
  | ran (code : Option Int) (stdout stderr : String)

/-- Shortcut location (shortcut module; modelled from the spec's SystemMutator). -/
inductive ShortcutLocation where
  | desktop
  | startMenuPrograms
deriving DecidableEq, Repr

/-- Observable trace events of one run. -/
inductive Event where
  | skipModule (id : String)
  | beginModule (id : String)
  | ranInstaller (exe : FPath)
  | copiedTree (src dst : FPath)
  | wroteState
  | deleteAutorun (name : String)
  | deleteFw (name : String)
  | uninstallSvc (name : String)
  | removedShortcut (p : FPath)
  | warnNoUninstaller (id : String)
  | uninstModule (id : String)
  | removedModuleDir (p : FPath)
deriving DecidableEq, Repr

/-- The world: host state plus oracles for the external collaborators.
    Modelled from the spec: the service, shortcut and firewall mutators and the
    process runner are the spec's SystemMutator / ProcessRunner interfaces
    (their sources are not part of the orchestration code under analysis). -/
structure World where
  isAdmin : Bool
  allowNonAdminEnv : Bool
  programData : Option FPath
  fs : FS
  reg : Reg
  uuid : Nat
  now : Nat
  runProc : FPath → List String → ProcResult
  shortcutRemove : List String → Except Err Nat
  shortcutCreate : ShortcutLocation → String → FPath → Except Err FPath
  svcInstall : String → Except Err Unit
  svcUninstall : String → Except Err Unit
  fwAdd : FirewallRule → Except Err Unit
  fwDelete : String → Except Err Unit

/-- Command line arguments (main.rs Cli). -/
structure Cli where
  manifest : FPath
  silent : Bool

/-- Result triple of an effectful embedded function. -/
abbrev MRes (α : Type) := Except Err α × World × List Event

/-! Path and directory conventions (xiaohai-core paths.rs). -/

/-- ProgramData vendor directory name (paths.rs VENDOR_DIR). -/
def VENDOR_DIR : String := "XiaoHaiAssistant"

def dataSubName : String := "data"

def pluginsSubName : String := "plugins"

def stateFileName : String := "install-state.json"

def jsonExt : String := ".json"

def runKeyPath : String := "SOFTWARE\\Microsoft\\Windows\\CurrentVersion\\Run"

def dotnetKeyPath : String := "SOFTWARE\\Microsoft\\NET Framework Setup\\NDP\\v4\\Full"

def releaseValueName : String := "Release"

def vcKeyPath : String := "SOFTWARE\\Microsoft\\VisualStudio\\14.0\\VC\\Runtimes\\x64"

def installedValueName : String := "Installed"

def defaultAutorunName : String := "XiaoHaiAssistant"

/-- paths.rs program_data_dir: ProgramData env var joined with the vendor dir. -/
def program_data_dir (w : World) : Except Err FPath :=
  match w.programData with
  | some p => .ok (p.join1 VENDOR_DIR)
  | none => .error .envProgramData

/-- paths.rs default_data_root. -/
def default_data_root (w : World) : Except Err FPath :=
  match program_data_dir w with
  | .ok p => .ok (p.join1 dataSubName)
  | .error e => .error e

/-- paths.rs default_plugin_dir. -/
def default_plugin_dir (w : World) : Except Err FPath :=
  match program_data_dir w with
  | .ok p => .ok (p.join1 pluginsSubName)
  | .error e => .error e

/-- paths.rs default_state_file. -/
def default_state_file (w : World) : Except Err FPath :=
  match program_data_dir w with
  | .ok p => .ok (p.join1 stateFileName)
  | .error e => .error e

/-- paths.rs resolve_path: empty is an error, absolute wins, else joined. -/
def resolve_path (base : FPath) (raw : FPath) : Except Err FPath :=
  if raw.isEmptyStr then .error .emptyPath
  else if raw.absolute then .ok raw
  else .ok (base.join raw)

/-- paths.rs ensure_dir (create_dir_all; total in the model). -/
def ensure_dir (p : FPath) (w : World) : World :=
  { w with fs := w.fs.ensureDir p }

/-! Registry operations (xiaohai-windows registry.rs). -/

/-- registry.rs detect_registry_rule: open the key, read the value as the
    declared type, compare against the expectation; a mismatched expectation
    variant compares to false. -/
def detect_registry_rule (reg : Reg) (rule : RegistryValueRule) : Except Err Bool :=
  match regFind reg rule.hive rule.key with
  | none => .error (.regOpenFailed rule.hive rule.key)
  | some vs =>
    match rule.kind with
    | .dword =>
      match valFind vs rule.value_name with
      | some (.dword v) =>
        .ok (match rule.expected with
             | .dwordAtLeast min => decide (min ≤ v)
             | .dwordEquals eq => decide (v = eq)
             | .szEquals _ => false)
      | _ => .error (.regReadFailed rule.value_name)
    | .sz =>
      match valFind vs rule.value_name with
      | some (.sz s) =>
        .ok (match rule.expected with
             | .szEquals eq => decide (s = eq)
             | .dwordAtLeast _ => false
             | .dwordEquals _ => false)
      | _ => .error (.regReadFailed rule.value_name)

/-- registry.rs detect_dotnet_fx48_installed: Release >= 528040 under the NDP key. -/
def detect_dotnet_fx48_installed (reg : Reg) : Except Err Bool :=
  match regFind reg .hklm dotnetKeyPath with
  | none => .error (.regOpenFailed .hklm dotnetKeyPath)
  | some vs =>
    match valFind vs releaseValueName with
    | some (.dword v) => .ok (decide (528040 ≤ v))
    | _ => .error (.regReadFailed releaseValueName)

/-- registry.rs detect_vcredist_2015_2022_x64_installed: Installed == 1. -/
def detect_vcredist_2015_2022_x64_installed (reg : Reg) : Except Err Bool :=
  match regFind reg .hklm vcKeyPath with
  | none => .error (.regOpenFailed .hklm vcKeyPath)
  | some vs =>
    match valFind vs installedValueName with
    | some (.dword v) => .ok (decide (v = 1))
    | _ => .error (.regReadFailed installedValueName)

/-- registry.rs set_hklm_run: create the Run key if needed and set the value. -/
def set_hklm_run (name command : String) (reg : Reg) : Reg :=
  let vs := (regFind reg .hklm runKeyPath).getD []
  regSet reg .hklm runKeyPath (valSet vs name (.sz command))

/-- registry.rs delete_hklm_run: opening the Run key can fail; the value
    deletion itself is ignored. The event records the removal attempt. -/
def delete_hklm_run (name : String) (w : World) : MRes Unit :=
  match regFind w.reg .hklm runKeyPath with
  | some vs =>
    (.ok (), { w with reg := regSet w.reg .hklm runKeyPath (valRemove vs name) },
     [.deleteAutorun name])
  | none => (.error (.regOpenFailed .hklm runKeyPath), w, [.deleteAutorun name])

/-! Prerequisite detection (xiaohai-windows prereq.rs). -/

inductive PrereqStatus where
  | installed
  | missing
deriving DecidableEq, Repr

/-- prereq.rs dotnet_fx48_status. -/
def dotnet_fx48_status (w : World) : Except Err PrereqStatus :=
  match detect_dotnet_fx48_installed w.reg with
  | .ok true => .ok .installed
  | .ok false => .ok .missing
  | .error e => .error e

/-- prereq.rs vcredist_2015_2022_x64_status. -/
def vcredist_2015_2022_x64_status (w : World) : Except Err PrereqStatus :=
  match detect_vcredist_2015_2022_x64_installed w.reg with
  | .ok true => .ok .installed
  | .ok false => .ok .missing
  | .error e => .error e

/-! The bootstrapper itself (xiaohai-bootstrapper main.rs). -/

/-- main.rs allow_non_admin_for_tests: the test escape-hatch env var. -/
def allow_non_admin_for_tests (w : World) : Bool :=
  w.allowNonAdminEnv

/-- elevation.rs is_running_as_admin (never errs). -/
def is_running_as_admin (w : World) : Except Err Bool :=
  .ok w.isAdmin

/-- main.rs load_manifest: read and parse the bundle manifest. -/
def load_manifest (p : FPath) (w : World) : Except Err BundleManifest :=
  match w.fs.lookup p with
  | some (.file (.manifestJson m)) => .ok m
  | some _ => .error .manifestParse
  | none => .error (.manifestMissing p)

/-- The base directory of the manifest (cli.manifest.parent() or "."). -/
def baseDirOf (cli : Cli) : FPath :=
  (cli.manifest.parent).getD ⟨false, []⟩

/-- main.rs ensure_programdata_layout: create the vendor, plugin and data dirs. -/
def ensure_programdata_layout (w : World) : MRes Unit :=
  match program_data_dir w with
  | .error e => (.error e, w, [])
  | .ok base =>
    let w := ensure_dir base w
    match default_plugin_dir w with
    | .error e => (.error e, w, [])
    | .ok pd =>
      let w := ensure_dir pd w
      match default_data_root w with
      | .error e => (.error e, w, [])
      | .ok dr => (.ok (), ensure_dir dr w, [])

/-- Default success exit codes when the declared list is empty (main.rs). -/
def defaultOkCodes : List Int := [0, 3010, 1641]

/-- main.rs run_installer: resolve, spawn, classify the exit code; a child
    without an exit code counts as -1; an out-of-set code carries the captured
    stdout and stderr in the error. -/
def run_installer (base : FPath) (inst : PayloadInstaller) (w : World) : MRes Unit :=
  match resolve_path base inst.path with
  | .error e => (.error e, w, [])
  | .ok exe =>
    match w.runProc exe inst.args with
    | .spawnErr => (.error (.spawnFailed exe), w, [.ranInstaller exe])
    | .ran code? stdout stderr =>
      let code := code?.getD (-1)
      let ok_codes := if inst.success_exit_codes.isEmpty then defaultOkCodes
                      else inst.success_exit_codes
      if code ∈ ok_codes then (.ok (), w, [.ranInstaller exe])
      else (.error (.badExitCode exe code stdout stderr), w, [.ranInstaller exe])

/-- The dotnet block of install_prerequisites: if enabled and missing,
    require and run its installer. -/
def install_prereq_dotnet (man : BundleManifest) (base : FPath) (w : World) : MRes Unit :=
  if man.prerequisites.dotnet_fx48.enabled then
    match dotnet_fx48_status w with
    | .error e => (.error e, w, [])
    | .ok .missing =>
      match man.prerequisites.dotnet_fx48.installer with
      | none => (.error (.prereqMissingInstallerCfg ("dotnet_fx48")), w, [])
      | some inst => run_installer base inst w
    | .ok .installed => (.ok (), w, [])
  else (.ok (), w, [])

/-- The vcredist block of install_prerequisites. -/
def install_prereq_vcredist (man : BundleManifest) (base : FPath) (w : World) : MRes Unit :=
  if man.prerequisites.vcredist_2015_2022_x64.enabled then
    match vcredist_2015_2022_x64_status w with
    | .error e => (.error e, w, [])
    | .ok .missing =>
      match man.prerequisites.vcredist_2015_2022_x64.installer with
      | none => (.error (.prereqMissingInstallerCfg ("vcredist_2015_2022_x64")), w, [])
      | some inst => run_installer base inst w
    | .ok .installed => (.ok (), w, [])
  else (.ok (), w, [])

/-- main.rs install_prerequisites: the dotnet block, then the vcredist block. -/
def install_prerequisites (man : BundleManifest) (base : FPath) (w : World) : MRes Unit :=
  match install_prereq_dotnet man base w with
  | (.error e, w1, t1) => (.error e, w1, t1)
  | (.ok _, w1, t1) =>
    match install_prereq_vcredist man base w1 with
    | (res, w2, t2) => (res, w2, t1 ++ t2)

/-- main.rs detect_module_installed: dispatch on the module's detection rule.
    Reads the world, never changes it. -/
def detect_module_installed (base : FPath) (m : ModuleManifest) (w : World) : Except Err Bool :=
  match m.detect with
  | .noRule => .ok false
  | .registryValue rule => detect_registry_rule w.reg rule
  | .fileExists rule =>
    match resolve_path base rule.path with
    | .error e => .error e
    | .ok p => .ok (w.fs.existsPath p)

mutual
/-- main.rs copy_recursively, denotation on a snapshot of the source node
    inside one root tree: a file is copied (the preceding create_dir_all plus
    fs::copy amount to a path-creating write), a directory is created and its
    entries copied one by one, in order. -/
def copyNodeN (n root : FsNode) (dst : List String) : FsNode :=
  match n with
  | .file d => nodeWrite root dst (.file d)
  | .dir es => copyEntriesN es (nodeEnsureDir root dst) dst

/-- Copy the entries of a directory into dst, in order. -/
def copyEntriesN (es : List (String × FsNode)) (root : FsNode) (dst : List String) : FsNode :=
  match es with
  | [] => root
  | (c, n) :: rest => copyEntriesN rest (copyNodeN n root (dst ++ [c])) dst
end

/-- main.rs copy_recursively as a world operation; a missing source makes the
    directory branch create dst and then fail reading the source dir. -/
def copy_recursively (src dst : FPath) (w : World) : MRes Unit :=
  match w.fs.lookup src with
  | some n =>
    (.ok (),
     { w with fs := w.fs.setRoot dst.absolute (copyNodeN n (w.fs.root dst.absolute) dst.comps) },
     [.copiedTree src dst])
  | none => (.error (.readDirFailed src), { w with fs := w.fs.ensureDir dst }, [])

/-- Literal substring substitutions, in declaration order (apply_module_config). -/
def applyReplacements (content : String) (rs : List KeyValue) : String :=
  rs.foldl (fun acc kv => acc.replace kv.key kv.value) content

/-- The per-file loop of apply_module_config: a missing target is skipped,
    an unreadable one is an error, otherwise replace and write back. -/
def apply_file_replacements (install_root : FPath) (frs : List FileReplacement)
    (w : World) : MRes Unit :=
  match frs with
  | [] => (.ok (), w, [])
  | fr :: rest =>
    match resolve_path install_root fr.file with
    | .error e => (.error e, w, [])
    | .ok target =>
      if w.fs.existsPath target then
        match w.fs.lookup target with
        | some (.file (.text content)) =>
          let content2 := applyReplacements content fr.replacements
          apply_file_replacements install_root rest
            { w with fs := w.fs.write target (.file (.text content2)) }
        | _ => (.error (.readFileFailed target), w, [])
      else
        apply_file_replacements install_root rest w

/-- main.rs apply_module_config: create the module data subdir (if declared)
    and run the declared file replacements.  Note the data-root default is
    computed eagerly, as in the source (unwrap_or with an eager argument). -/
def apply_module_config (base : FPath) (man : BundleManifest) (m : ModuleManifest)
    (w : World) : MRes Unit :=
  let install_root := man.install_root
  match default_data_root w with
  | .error e => (.error e, w, [])
  | .ok dflt =>
    let data_root := (man.post_config.data_root).getD dflt
    let w := match m.config.data_subdir with
      | some subdir => ensure_dir (data_root.join1 subdir) w
      | none => w
    let _ := base
    apply_file_replacements install_root m.config.file_replacements w

/-- The module loop of write_plugins: each enabled module with a plugin gets a
    json artifact named by the plugin id with the module id injected. -/
def write_plugins_loop (plugin_dir : FPath) (mods : List ModuleManifest) (w : World) : World :=
  match mods with
  | [] => w
  | m :: rest =>
    if m.enabled then
      match m.plugin with
      | none => write_plugins_loop plugin_dir rest w
      | some pl =>
        let file := plugin_dir.join1 (pl.id ++ jsonExt)
        write_plugins_loop plugin_dir rest
          { w with fs := w.fs.write file (.file (.pluginJson ⟨pl, m.id⟩)) }
    else write_plugins_loop plugin_dir rest w

/-- main.rs write_plugins: resolve the plugin dir (defaulting eagerly), ensure
    it, then write one artifact per enabled module that declares a plugin. -/
def write_plugins (base : FPath) (man : BundleManifest) (w : World) : MRes Unit :=
  match default_plugin_dir w with
  | .error e => (.error e, w, [])
  | .ok dflt =>
    let plugin_dir := (man.post_config.plugin_dir).getD dflt
    let w := ensure_dir plugin_dir w
    let _ := base
    (.ok (), write_plugins_loop plugin_dir man.modules w, [])

/-- Is this directory entry a json file (remove_plugins predicate)? -/
def isJsonFileEntry : String × FsNode → Bool
  | (name, .file _) => name.endsWith jsonExt
  | (_, .dir _) => false

/-- main.rs remove_plugins: delete every json file in the plugin dir; a missing
    dir is fine, an unreadable one is an error. -/
def remove_plugins (w : World) : MRes Unit :=
  match default_plugin_dir w with
  | .error e => (.error e, w, [])
  | .ok pd =>
    if w.fs.existsPath pd then
      match w.fs.lookup pd with
      | some (.dir es) =>
        (.ok (), { w with fs := w.fs.write pd (.dir (es.filter (fun e => !isJsonFileEntry e))) }, [])
      | _ => (.error (.readDirFailed pd), w, [])
    else (.ok (), w, [])

/-- The per-module shortcut governance loop of manage_shortcuts: failures of
    the desktop removal call are propagated (the source applies the try
    operator), the returned count is discarded. -/
def remove_module_shortcuts (mods : List ModuleManifest) (w : World) : MRes Unit :=
  match mods with
  | [] => (.ok (), w, [])
  | m :: rest =>
    if m.enabled then
      match w.shortcutRemove m.remove_desktop_shortcuts with
      | .error e => (.error e, w, [])
      | .ok _ => remove_module_shortcuts rest w
    else remove_module_shortcuts rest w

def desktopLocName : String := "desktop"

def startMenuLocName : String := "start_menu"

/-- main.rs manage_shortcuts: remove vendor desktop icons, then create the
    unified entry shortcut on the desktop and/or start menu, recording each. -/
def manage_shortcuts (man : BundleManifest) (st : InstallState) (w : World) : MRes InstallState :=
  match remove_module_shortcuts man.modules w with
  | (.error e, w1, t1) => (.error e, w1, t1)
  | (.ok _, w1, t1) =>
    let assistant_exe := man.install_root.join man.shortcuts.assistant_exe
    let afterDesktop : Except Err InstallState :=
      if man.shortcuts.desktop then
        match w1.shortcutCreate .desktop man.shortcuts.assistant_name assistant_exe with
        | .error e => .error e
        | .ok p =>
          .ok { st with created_shortcuts := st.created_shortcuts ++ [⟨desktopLocName, p⟩] }
      else .ok st
    match afterDesktop with
    | .error e => (.error e, w1, t1)
    | .ok st1 =>
      if man.shortcuts.start_menu then
        match w1.shortcutCreate .startMenuPrograms man.shortcuts.assistant_name assistant_exe with
        | .error e => (.error e, w1, t1)
        | .ok p =>
          (.ok { st1 with created_shortcuts := st1.created_shortcuts ++ [⟨startMenuLocName, p⟩] },
           w1, t1)
      else (.ok st1, w1, t1)

/-- Rendering of a path for building a command string (Path::display). -/
def pathDisplay (p : FPath) : String :=
  String.intercalate ("\\") p.comps

/-- The quoted default autorun command built from the assistant exe path. -/
def quoteCmd (p : FPath) : String :=
  "\"" ++ pathDisplay p ++ "\""

/-- The firewall-rule loop of install_service_and_firewall. -/
def add_firewall_rules (rules : List FirewallRule) (st : InstallState) (w : World) :
    MRes InstallState :=
  match rules with
  | [] => (.ok st, w, [])
  | r :: rest =>
    match w.fwAdd r with
    | .error e => (.error e, w, [])
    | .ok _ =>
      add_firewall_rules rest { st with firewall_rules := st.firewall_rules ++ [r.name] } w

/-- main.rs install_service_and_firewall: optional autorun registry entry,
    optional service, optional firewall rules; each recorded into the state. -/
def install_service_and_firewall (man : BundleManifest) (st : InstallState) (w : World) :
    MRes InstallState :=
  let (st1, w1) :=
    if man.autorun.enabled then
      let name := if man.autorun.name = "" then defaultAutorunName else man.autorun.name
      let command :=
        if man.autorun.command = "" then
          quoteCmd (man.install_root.join man.shortcuts.assistant_exe)
        else man.autorun.command
      ({ st with autorun_name := some name },
       { w with reg := set_hklm_run name command w.reg })
    else (st, w)
  let afterService : Except Err InstallState :=
    if man.service.enabled then
      match w1.svcInstall man.service.name with
      | .error e => .error e
      | .ok _ => .ok { st1 with service_name := some man.service.name }
    else .ok st1
  match afterService with
  | .error e => (.error e, w1, [])
  | .ok st2 =>
    if man.firewall.enabled then add_firewall_rules man.firewall.rules st2 w1
    else (.ok st2, w1, [])

/-- main.rs persist_state: serialize the state document into the state file. -/
def persist_state (st : InstallState) (w : World) : MRes Unit :=
  match default_state_file w with
  | .error e => (.error e, w, [])
  | .ok path =>
    (.ok (), { w with fs := w.fs.write path (.file (.stateJson st)) }, [.wroteState])

/-- The installed-module record appended when detection reports true (skip). -/
def skippedEntry (m : ModuleManifest) : InstalledModule :=
  ⟨m.id, m.display_name, kindStr m.kind, true, none, none⟩

/-- The installed-module record appended after a performed install. -/
def installedEntry (m : ModuleManifest) (root : FPath) : InstalledModule :=
  ⟨m.id, m.display_name, kindStr m.kind, true, some root, none⟩

/-- The body of the install loop for one enabled module (main.rs install,
    lines 143-190): detect, skip or install, configure, append the record. -/
def installModuleStep (base : FPath) (man : BundleManifest) (m : ModuleManifest)
    (st : InstallState) (w : World) : MRes InstallState :=
  match detect_module_installed base m w with
  | .error e => (.error e, w, [])
  | .ok true =>
    (.ok { st with modules := st.modules ++ [skippedEntry m] }, w, [.skipModule m.id])
  | .ok false =>
    let install_root := man.install_root
    match m.kind with
    | .msi | .exe =>
      match m.installer with
      | none => (.error (.missingInstallerCfg m.id), w, [.beginModule m.id])
      | some inst =>
        match run_installer base inst w with
        | (.error e, w2, t1) => (.error e, w2, .beginModule m.id :: t1)
        | (.ok _, w2, t1) =>
          match apply_module_config base man m w2 with
          | (.error e, w3, t2) => (.error e, w3, .beginModule m.id :: (t1 ++ t2))
          | (.ok _, w3, t2) =>
            (.ok { st with modules := st.modules ++ [installedEntry m install_root] },
             w3, .beginModule m.id :: (t1 ++ t2))
    | .fileCopy =>
      match m.payload with
      | none => (.error (.missingPayloadCfg m.id), w, [.beginModule m.id])
      | some pl =>
        match resolve_path base pl.path with
        | .error e => (.error e, w, [.beginModule m.id])
        | .ok src =>
          let dst := match pl.install_subdir with
            | some subdir => install_root.join1 subdir
            | none => install_root.join1 m.id
          match copy_recursively src dst w with
          | (.error e, w2, t1) => (.error e, w2, .beginModule m.id :: t1)
          | (.ok _, w2, t1) =>
            match apply_module_config base man m w2 with
            | (.error e, w3, t2) => (.error e, w3, .beginModule m.id :: (t1 ++ t2))
            | (.ok _, w3, t2) =>
              (.ok { st with modules := st.modules ++ [installedEntry m install_root] },
               w3, .beginModule m.id :: (t1 ++ t2))

/-- The install loop over the manifest's modules, in order; disabled modules
    are omitted entirely, the first error aborts the loop. -/
def installModules (base : FPath) (man : BundleManifest) (mods : List ModuleManifest)
    (st : InstallState) (w : World) : MRes InstallState :=
  match mods with
  | [] => (.ok st, w, [])
  | m :: rest =>
    if m.enabled then
      match installModuleStep base man m st w with
      | (.error e, w2, t1) => (.error e, w2, t1)
      | (.ok st2, w2, t1) =>
        match installModules base man rest st2 w2 with
        | (res, w3, t2) => (res, w3, t1 ++ t2)
    else installModules base man rest st w

/-- main.rs install: privilege gate, manifest load, ProgramData layout,
    prerequisites, module loop, plugin registration, shortcut governance,
    service/firewall/autorun, and finally one state-file write. -/
def install (cli : Cli) (w : World) : MRes Unit :=
  if !allow_non_admin_for_tests w && !w.isAdmin then (.error .needAdmin, w, [])
  else
    match load_manifest cli.manifest w with
    | .error e => (.error e, w, [])
    | .ok man =>
      let base := baseDirOf cli
      match ensure_programdata_layout w with
      | (.error e, w1, t1) => (.error e, w1, t1)
      | (.ok _, w1, t1) =>
        match install_prerequisites man base w1 with
        | (.error e, w2, t2) => (.error e, w2, t1 ++ t2)
        | (.ok _, w2, t2) =>
          let st0 := InstallState.new w2.uuid w2.now man.product_code man.version
          match installModules base man man.modules st0 w2 with
          | (.error e, w3, t3) => (.error e, w3, t1 ++ t2 ++ t3)
          | (.ok st1, w3, t3) =>
            match write_plugins base man w3 with
            | (.error e, w4, t4) => (.error e, w4, t1 ++ t2 ++ t3 ++ t4)
            | (.ok _, w4, t4) =>
              match manage_shortcuts man st1 w4 with
              | (.error e, w5, t5) => (.error e, w5, t1 ++ t2 ++ t3 ++ t4 ++ t5)
              | (.ok st2, w5, t5) =>
                match install_service_and_firewall man st2 w5 with
                | (.error e, w6, t6) => (.error e, w6, t1 ++ t2 ++ t3 ++ t4 ++ t5 ++ t6)
                | (.ok st3, w6, t6) =>
                  match persist_state st3 w6 with
                  | (res, w7, t7) => (res, w7, t1 ++ t2 ++ t3 ++ t4 ++ t5 ++ t6 ++ t7)

/-! The uninstall path (main.rs uninstall) and the detect command. -/

/-- Read the state document if the state file exists; a present but
    unparsable file is an error (the source applies the try operator to both
    the read and the parse). -/
def read_state_file (state_path : FPath) (w : World) : Except Err (Option InstallState) :=
  if w.fs.existsPath state_path then
    match w.fs.lookup state_path with
    | some (.file (.stateJson st)) => .ok (some st)
    | _ => .error .stateParse
  else .ok none

/-- Best-effort firewall rule removal (uninstall step 2): the netsh outcome is
    computed and discarded. -/
def delete_fw_rules (rules : List String) (w : World) : World × List Event :=
  match rules with
  | [] => (w, [])
  | r :: rest =>
    let _ := w.fwDelete r
    match delete_fw_rules rest w with
    | (w2, tr) => (w2, .deleteFw r :: tr)

/-- Best-effort removal of recorded shortcuts: remove_file deletes files only
    and its failure is discarded. -/
def remove_created_shortcuts (ss : List CreatedShortcut) (w : World) : World × List Event :=
  match ss with
  | [] => (w, [])
  | s :: rest =>
    let w2 := if w.fs.isFile s.path then { w with fs := w.fs.remove s.path } else w
    match remove_created_shortcuts rest w2 with
    | (w3, tr) => (w3, .removedShortcut s.path :: tr)

/-- The recorded-mutation rollback block of uninstall (state present):
    firewall rules, autorun entry, service, shortcuts — every failure of a
    removal is discarded. -/
def rollback_recorded (st : InstallState) (w : World) : World × List Event :=
  match delete_fw_rules st.firewall_rules w with
  | (w1, t1) =>
    let (w2, t2) := match st.autorun_name with
      | some name =>
        match delete_hklm_run name w1 with
        | (_, w2, t2) => (w2, t2)
      | none => (w1, [])
    let t3 := match st.service_name with
      | some svc =>
        let _ := w2.svcUninstall svc
        [Event.uninstallSvc svc]
      | none => []
    match remove_created_shortcuts st.created_shortcuts w2 with
    | (w3, t4) => (w3, t1 ++ t2 ++ t3 ++ t4)

/-- remove_dir_all guarded by exists(); on a non-directory the removal fails
    and the failure is discarded, so only directories actually disappear. -/
def removeDirAllIfExists (p : FPath) (w : World) : World :=
  if w.fs.existsPath p then
    match w.fs.lookup p with
    | some (.dir _) => { w with fs := w.fs.remove p }
    | _ => w
  else w

/-- The body of the uninstall loop for one enabled module: native-installer
    kinds run their uninstaller (failure propagated) or warn when absent;
    file-copy kinds get their computed directory removed best-effort. -/
def uninstallModuleStep (base : FPath) (install_root : FPath) (m : ModuleManifest)
    (w : World) : MRes Unit :=
  match m.kind with
  | .msi | .exe =>
    match m.uninstaller with
    | some u =>
      match run_installer base u w with
      | (res, w2, t1) => (res, w2, .uninstModule m.id :: t1)
    | none => (.ok (), w, [.warnNoUninstaller m.id])
  | .fileCopy =>
    let dir := match (m.payload).bind (fun pl => pl.install_subdir) with
      | some subdir => install_root.join1 subdir
      | none => install_root.join1 m.id
    if w.fs.existsPath dir then
      ((.ok ()), removeDirAllIfExists dir w, [.removedModuleDir dir])
    else (.ok (), w, [])

/-- The uninstall loop over the manifest's modules, in order. -/
def uninstallModules (base : FPath) (install_root : FPath) (mods : List ModuleManifest)
    (w : World) : MRes Unit :=
  match mods with
  | [] => (.ok (), w, [])
  | m :: rest =>
    if m.enabled then
      match uninstallModuleStep base install_root m w with
      | (.error e, w2, t1) => (.error e, w2, t1)
      | (.ok _, w2, t1) =>
        match uninstallModules base install_root rest w2 with
        | (res, w3, t2) => (res, w3, t1 ++ t2)
    else uninstallModules base install_root rest w

/-- main.rs uninstall: privilege gate, manifest load, state-driven rollback
    (best-effort), fallback autorun removal when no state exists, plugin
    artifact removal, module uninstall loop, and removal of the install root
    and the ProgramData vendor directory. -/
def uninstall (cli : Cli) (w : World) : MRes Unit :=
  if !allow_non_admin_for_tests w && !w.isAdmin then (.error .needAdmin, w, [])
  else
    match load_manifest cli.manifest w with
    | .error e => (.error e, w, [])
    | .ok man =>
      let base := baseDirOf cli
      match default_state_file w with
      | .error e => (.error e, w, [])
      | .ok state_path =>
        match read_state_file state_path w with
        | .error e => (.error e, w, [])
        | .ok stOpt =>
          let (w1, t1) := match stOpt with
            | some st => rollback_recorded st w
            | none => (w, [])
          let (w2, t2) :=
            if stOpt.isNone ∧ man.autorun.enabled then
              let name := if man.autorun.name = "" then defaultAutorunName
                          else man.autorun.name
              match delete_hklm_run name w1 with
              | (_, w2, t2) => (w2, t2)
            else (w1, [])
          match remove_plugins w2 with
          | (.error e, w3, t3) => (.error e, w3, t1 ++ t2 ++ t3)
          | (.ok _, w3, t3) =>
            let install_root := man.install_root
            match uninstallModules base install_root man.modules w3 with
            | (.error e, w4, t4) => (.error e, w4, t1 ++ t2 ++ t3 ++ t4)
            | (.ok _, w4, t4) =>
              let w5 := removeDirAllIfExists install_root w4
              match program_data_dir w5 with
              | .error e => (.error e, w5, t1 ++ t2 ++ t3 ++ t4)
              | .ok data_dir =>
                (.ok (), removeDirAllIfExists data_dir w5, t1 ++ t2 ++ t3 ++ t4)

def lineSepA : String := " ("

def lineSepB : String := ") = "

/-- One output line of the detect command (println! formatting). -/
def detectLine (m : ModuleManifest) (installed : Bool) : String :=
  m.display_name ++ lineSepA ++ m.id ++ lineSepB ++ toString installed

/-- The module loop of the detect command: one line per enabled module in
    manifest order; a detection error aborts. -/
def detect_loop (base : FPath) (mods : List ModuleManifest) (w : World) :
    Except Err (List String) :=
  match mods with
  | [] => .ok []
  | m :: rest =>
    if m.enabled then
      match detect_module_installed base m w with
      | .error e => .error e
      | .ok b =>
        match detect_loop base rest w with
        | .error e => .error e
        | .ok lines => .ok (detectLine m b :: lines)
    else detect_loop base rest w

/-- main.rs detect: load the manifest and print one line per enabled module;
    performs no mutation, so the world is returned untouched. -/
def detectCmd (cli : Cli) (w : World) : MRes (List String) :=
  match load_manifest cli.manifest w with
  | .error e => (.error e, w, [])
  | .ok man =>
    match detect_loop (baseDirOf cli) man.modules w with
    | .error e => (.error e, w, [])
    | .ok lines => (.ok lines, w, [])

/-- The module attempt markers of a trace: the ids of the modules the install
    loop started to process (skipped-by-detection or actually installed). -/
def markers (tr : List Event) : List String :=
  tr.filterMap (fun e => match e with
    | .skipModule id => some id
    | .beginModule id => some id
    | _ => none)

/-- The ids of the enabled modules of a list, in order. -/
def enabledIds (mods : List ModuleManifest) : List String :=
  (mods.filter (fun m => m.enabled)).map (fun m => m.id)

/-! Auxiliary predicates used by the statements of the claims. -/

/-- Is there a directory at this path? -/
def FS.isDir (fs : FS) (p : FPath) : Bool :=
  match fs.lookup p with
  | some (.dir _) => true
  | _ => false

/-- A path is writable in a tree when every node that already exists along it
    is a directory (so create_dir_all and a file write there succeed). -/
def nodeWritable : FsNode → List String → Bool
  | _, [] => true
  | .file _, _ :: _ => false
  | .dir es, c :: cs =>
    match findEntry es c with
    | some n => nodeWritable n cs
    | none => true

/-- Directory entry names are pairwise distinct. -/
def keysNodupF : List (String × FsNode) → Bool
  | [] => true
  | (c, _) :: rest => rest.all (fun e => e.1 != c) && keysNodupF rest

mutual
/-- A well-formed tree: every directory has distinct entry names. -/
def nodeWF : FsNode → Bool
  | .file _ => true
  | .dir es => keysNodupF es && listWF es

def listWF : List (String × FsNode) → Bool
  | [] => true
  | (_, n) :: rest => nodeWF n && listWF rest
end

/-- Two paths diverge when neither is a prefix of the other. -/
def Diverge (p q : List String) : Prop :=
  ¬(p <+: q) ∧ ¬(q <+: p)

/-- The expectation variant of a registry rule names a dword comparison. -/
def expectedIsDword : RegistryExpectedValue → Bool
  | .dwordAtLeast _ => true
  | .dwordEquals _ => true
  | .szEquals _ => false

/-- The rule's declared value type and its expectation variant disagree. -/
def ruleKindMismatch (rule : RegistryValueRule) : Bool :=
  match rule.kind with
  | .dword => !expectedIsDword rule.expected
  | .sz => expectedIsDword rule.expected

/-- Reading the rule's value as its declared type succeeds against this
    registry (the key opens and the value has the declared type). -/
def regReadOkForKind (reg : Reg) (rule : RegistryValueRule) : Bool :=
  match regFind reg rule.hive rule.key with
  | none => false
  | some vs =>
    match rule.kind, valFind vs rule.value_name with
    | .dword, some (.dword _) => true
    | .sz, some (.sz _) => true
    | _, _ => false

/-- Errors that arise from resolving or running an external installer or
    uninstaller (the one fallible step of the uninstall module loop). -/
def isUninstallerFailure : Err → Bool
  | .emptyPath => true
  | .spawnFailed _ => true
  | .badExitCode _ _ _ _ => true
  | _ => false

/-- The state document slot is well-formed: absent, or a parsable state file. -/
def stateDocAt (w : World) (sp : FPath) : Bool :=
  match w.fs.lookup sp with
  | none => true
  | some (.file (.stateJson _)) => true
  | some _ => false

/-- How many times the trace wrote the state file. -/
def wroteStateCount (tr : List Event) : Nat :=
  (tr.filter (fun e => e = Event.wroteState)).length

/-- The destination directory the source computes for a file-copy module. -/
def fileCopyDst (install_root : FPath) (m : ModuleManifest) (pl : ModulePayload) : FPath :=
  match pl.install_subdir with
  | some subdir => install_root.join1 subdir
  | none => install_root.join1 m.id

/-! Concrete sample data, used by witnesses and the counterexample. -/

def emptyFS : FS := ⟨.dir [], .dir []⟩

def programDataPath : FPath := ⟨true, ["C:", "ProgramData"]⟩

def sampleShortcutRemove : List String → Except Err Nat := fun _ => .ok 0

def sampleShortcutCreate : ShortcutLocation → String → FPath → Except Err FPath :=
  fun _ _ p => .ok p

def sampleSvcOracle : String → Except Err Unit := fun _ => .ok ()

def sampleFwOracle : FirewallRule → Except Err Unit := fun _ => .ok ()

def sampleFwDelOracle : String → Except Err Unit := fun _ => .ok ()

/-- A benign base world: admin, ProgramData set, empty filesystem/registry. -/
def baseWorld : World :=
  { isAdmin := true
    allowNonAdminEnv := false
    programData := some programDataPath
    fs := emptyFS
    reg := []
    uuid := 7
    now := 11
    runProc := fun _ _ => .ran (some 0) ("") ("")
    shortcutRemove := sampleShortcutRemove
    shortcutCreate := sampleShortcutCreate
    svcInstall := sampleSvcOracle
    svcUninstall := sampleSvcOracle
    fwAdd := sampleFwOracle
    fwDelete := sampleFwDelOracle }

/-- A registry holding one string value, used by the C2 witness. -/
def sampleRegSz : Reg := [((RegistryHive.hklm, "SOFTWARE\\Acme"), [("Ver", RegValue.sz "1.2")])]

/-- A dword-expectation rule declared over an sz read, used by the C2 witness. -/
def sampleMismatchRule : RegistryValueRule :=
  ⟨.hklm, "SOFTWARE\\Acme", "Ver", .sz, .dwordAtLeast 1⟩

/-- An installer descriptor with a custom success-code list. -/
def sampleInstaller42 : PayloadInstaller :=
  ⟨⟨true, ["C:", "pkg", "setup.exe"]⟩, [], [42]⟩

/-- An installer descriptor with the default (empty) success-code list. -/
def sampleInstallerDflt : PayloadInstaller :=
  ⟨⟨true, ["C:", "pkg", "setup.exe"]⟩, [], []⟩

/-- The world whose process runner exits 0, used by the C5 witness. -/
def worldExit0 : World :=
  { baseWorld with runProc := fun _ _ => .ran (some 0) ("out") ("err") }

/-- The world whose child dies without an exit code, used by the C10 witness. -/
def worldNoExit : World :=
  { baseWorld with runProc := fun _ _ => .ran none ("out") ("err") }

/-- A file-copy module with no detection rule, used by the C7 witness. -/
def sampleModuleNoDetect : ModuleManifest :=
  { id := "m1"
    display_name := "Module One"
    enabled := true
    kind := .fileCopy
    detect := .noRule
    payload := some ⟨⟨false, ["payload", "myapp"]⟩, some "appdir"⟩
    installer := none
    uninstaller := none
    remove_desktop_shortcuts := []
    plugin := none
    config := ⟨none, none, []⟩ }

/-- The copy correctness statement: with a fresh writable destination, every
    file of the source subtree lands at the destination joined with its
    relative path. -/
def CopyPlace (n : FsNode) : Prop :=
  ∀ root dst, nodeWF n = true → nodeWritable root dst = true → nodeLookup root dst = none →
    ∀ rel d, nodeLookup n rel = some (.file d) →
      nodeLookup (copyNodeN n root dst) (dst ++ rel) = some (.file d)

/-- The copy frame statement: a copy never touches a path diverging from its
    destination. -/
def CopyDiv (n : FsNode) : Prop :=
  ∀ root dst p, Diverge dst p → nodeLookup (copyNodeN n root dst) p = nodeLookup root p

/-- The copy directory-preservation statement: a copy keeps a directory at any
    strict prefix of its destination. -/
def CopyDir (n : FsNode) : Prop :=
  ∀ root dst pre es0, (∃ x rest, dst = pre ++ x :: rest) →
    nodeLookup root pre = some (.dir es0) →
    ∃ es1, nodeLookup (copyNodeN n root dst) pre = some (.dir es1)

/-- The artifact path write_plugins uses for a plugin registration. -/
def pluginFilePath (plugin_dir : FPath) (pl : PluginRegistration) : FPath :=
  plugin_dir.join1 (pl.id ++ jsonExt)

/-! Scenario data: concrete manifests and worlds. -/

def mfDir : FPath := ⟨true, ["C:", "mf"]⟩

def mfPath : FPath := ⟨true, ["C:", "mf", "bundle-manifest.json"]⟩

def cliA : Cli := ⟨mfPath, true⟩

def installRootA : FPath := ⟨true, ["C:", "InstallRoot"]⟩

def vendorDirPath : FPath := ⟨true, ["C:", "ProgramData", "XiaoHaiAssistant"]⟩

def statePathA : FPath := ⟨true, ["C:", "ProgramData", "XiaoHaiAssistant", "install-state.json"]⟩

def payloadNode : FsNode :=
  .dir [("nested", .dir [("hello.txt", .file (.text "hello"))])]

def prereqsOff : PrerequisitesManifest := ⟨⟨false, none⟩, ⟨false, none⟩⟩

def shortcutsOff : ShortcutManifest :=
  ⟨⟨false, ["xiaohai-assistant.exe"]⟩, "XiaoHai", none, false, false⟩

def postCfgNone : PostConfigManifest := ⟨none, none, none⟩

def fwOff : FirewallManifest := ⟨false, []⟩

def svcOff : ServiceManifest := ⟨false, "", "", "", ⟨false, []⟩, []⟩

def autorunOff : AutorunManifest := ⟨false, "", ""⟩

def pluginA : PluginRegistration :=
  ⟨"plugin_a", "PluginA", "appdir/nested/hello.txt", [], none, some .process⟩

/-- A file-copy module with payload nested/hello.txt and subdir appdir. -/
def moduleA : ModuleManifest :=
  { id := "module_a"
    display_name := "ModuleA"
    enabled := true
    kind := .fileCopy
    detect := .noRule
    payload := some ⟨⟨false, ["payload", "myapp"]⟩, some "appdir"⟩
    installer := none
    uninstaller := none
    remove_desktop_shortcuts := []
    plugin := some pluginA
    config := ⟨none, some "module_a", []⟩ }

def manifestA : BundleManifest :=
  ⟨"TestProduct", "test-product", "0.0.0", installRootA, prereqsOff, [moduleA],
   shortcutsOff, postCfgNone, fwOff, svcOff, autorunOff⟩

def worldA : World :=
  { baseWorld with
    fs := ⟨.dir [("C:", .dir [("mf", .dir
            [("bundle-manifest.json", .file (.manifestJson manifestA)),
             ("payload", .dir [("myapp", payloadNode)])])])],
          .dir []⟩ }

def pluginB : PluginRegistration :=
  ⟨"plugin_b", "PluginB", "bin/app.exe", [], none, none⟩

/-- An enabled module whose detection rule reports true (the manifest file
    itself exists) and which declares a plugin registration. -/
def moduleB : ModuleManifest :=
  { id := "module_b"
    display_name := "ModuleB"
    enabled := true
    kind := .fileCopy
    detect := .fileExists ⟨⟨false, ["bundle-manifest.json"]⟩⟩
    payload := some ⟨⟨false, ["payload", "myapp"]⟩, some "appdir"⟩
    installer := none
    uninstaller := none
    remove_desktop_shortcuts := []
    plugin := some pluginB
    config := ⟨none, none, []⟩ }

def manifestB : BundleManifest :=
  ⟨"TestProduct", "test-product", "0.0.0", installRootA, prereqsOff, [moduleB],
   shortcutsOff, postCfgNone, fwOff, svcOff, autorunOff⟩

def worldB : World :=
  { baseWorld with
    fs := ⟨.dir [("C:", .dir [("mf", .dir
            [("bundle-manifest.json", .file (.manifestJson manifestB))])])],
          .dir []⟩ }

/-- The artifact path of plugin_b under the default plugin dir. -/
def pluginBPath : FPath :=
  ⟨true, ["C:", "ProgramData", "XiaoHaiAssistant", "plugins", "plugin_b.json"]⟩

/-- A native-installer module without an uninstaller descriptor. -/
def moduleC : ModuleManifest :=
  { id := "module_c"
    display_name := "ModuleC"
    enabled := true
    kind := .msi
    detect := .noRule
    payload := none
    installer := some sampleInstallerDflt
    uninstaller := none
    remove_desktop_shortcuts := []
    plugin := none
    config := ⟨none, none, []⟩ }

def manifestC : BundleManifest :=
  ⟨"TestProduct", "test-product", "0.0.0", installRootA, prereqsOff, [moduleC],
   shortcutsOff, postCfgNone, fwOff, svcOff, autorunOff⟩

def worldC : World :=
  { baseWorld with
    fs := ⟨.dir [("C:", .dir [("mf", .dir
            [("bundle-manifest.json", .file (.manifestJson manifestC))])])],
          .dir []⟩ }

/-- A manifest declaring autorun enabled with a concrete name. -/
def manifestD : BundleManifest :=
  ⟨"TestProduct", "test-product", "0.0.0", installRootA, prereqsOff, [],
   shortcutsOff, postCfgNone, fwOff, svcOff, ⟨true, "AutoX", ""⟩⟩

def worldD : World :=
  { baseWorld with
    fs := ⟨.dir [("C:", .dir [("mf", .dir
            [("bundle-manifest.json", .file (.manifestJson manifestD))])])],
          .dir []⟩ }

/-- Two detect-only modules: one whose file-exists target is present, one
    whose target is absent. -/
def moduleE1 : ModuleManifest :=
  { id := "e1"
    display_name := "E1"
    enabled := true
    kind := .fileCopy
    detect := .fileExists ⟨⟨false, ["bundle-manifest.json"]⟩⟩
    payload := none
    installer := none
    uninstaller := none
    remove_desktop_shortcuts := []
    plugin := none
    config := ⟨none, none, []⟩ }

def moduleE2 : ModuleManifest :=
  { id := "e2"
    display_name := "E2"
    enabled := true
    kind := .fileCopy
    detect := .fileExists ⟨⟨false, ["nope.txt"]⟩⟩
    payload := none
    installer := none
    uninstaller := none
    remove_desktop_shortcuts := []
    plugin := none
    config := ⟨none, none, []⟩ }

def manifestE : BundleManifest :=
  ⟨"TestProduct", "test-product", "0.0.0", installRootA, prereqsOff,
   [moduleE1, moduleE2], shortcutsOff, postCfgNone, fwOff, svcOff, autorunOff⟩

def worldE : World :=
  { baseWorld with
    fs := ⟨.dir [("C:", .dir [("mf", .dir
            [("bundle-manifest.json", .file (.manifestJson manifestE))])])],
          .dir []⟩ }

/-! Lemmas and theorems. -/

/-- C2: for every RegistryValue detection rule whose expected-value variant is
    a dword comparison while the value is read as a string, or a string
    comparison while the value is read as a dword, a successful typed read
    makes detection return ok false — not satisfied, never an error. -/
theorem registry_mismatch_detects_false (reg : Reg) (rule : RegistryValueRule)
    (hm : ruleKindMismatch rule = true) (hr : regReadOkForKind reg rule = true) :
    detect_registry_rule reg rule = .ok false := by
  unfold regReadOkForKind at hr
  unfold ruleKindMismatch expectedIsDword at hm
  cases hfind : regFind reg rule.hive rule.key with
  | none => simp [hfind] at hr
  | some vs =>
    simp only [hfind] at hr
    cases hk : rule.kind with
    | dword =>
      simp only [hk] at hr hm
      cases hv : valFind vs rule.value_name with
      | none => simp [hv] at hr
      | some v =>
        cases v with
        | sz s => simp [hv] at hr
        | dword n =>
          cases he : rule.expected with
          | szEquals s => simp [detect_registry_rule, hfind, hk, hv, he]
          | dwordAtLeast m => simp [he] at hm
          | dwordEquals m => simp [he] at hm
    | sz =>
      simp only [hk] at hr hm
      cases hv : valFind vs rule.value_name with
      | none => simp [hv] at hr
      | some v =>
        cases v with
        | dword n => simp [hv] at hr
        | sz s =>
          cases he : rule.expected with
          | szEquals s2 => simp [he] at hm
          | dwordAtLeast m => simp [detect_registry_rule, hfind, hk, hv, he]
          | dwordEquals m => simp [detect_registry_rule, hfind, hk, hv, he]

/-- Witness for C2 at a concrete registry and rule: a dword-at-least
    expectation against a stored string value yields ok false. -/
theorem registry_mismatch_detects_false_witness :
    ruleKindMismatch sampleMismatchRule = true ∧
    regReadOkForKind sampleRegSz sampleMismatchRule = true ∧
    detect_registry_rule sampleRegSz sampleMismatchRule = .ok false :=
  ⟨by decide, by decide,
   registry_mismatch_detects_false sampleRegSz sampleMismatchRule (by decide) (by decide)⟩

/-- C5: classification of installer exit codes: the empty declared list means
    success exactly on 0, 3010 and 1641; a non-empty list means success
    exactly on the listed codes; any out-of-set code is a hard error carrying
    the captured stdout and stderr; a spawn failure is a hard error. -/
theorem run_installer_exit_code_policy (base : FPath) (inst : PayloadInstaller)
    (w : World) (exe : FPath) (hres : resolve_path base inst.path = .ok exe) :
    (w.runProc exe inst.args = .spawnErr →
      (run_installer base inst w).1 = .error (.spawnFailed exe)) ∧
    (∀ code? so se, w.runProc exe inst.args = .ran code? so se →
      (inst.success_exit_codes = [] →
        ((run_installer base inst w).1 = .ok () ↔ code?.getD (-1) ∈ defaultOkCodes)) ∧
      (inst.success_exit_codes ≠ [] →
        ((run_installer base inst w).1 = .ok () ↔
          code?.getD (-1) ∈ inst.success_exit_codes)) ∧
      (code?.getD (-1) ∉
          (if inst.success_exit_codes.isEmpty then defaultOkCodes
           else inst.success_exit_codes) →
        (run_installer base inst w).1 =
          .error (.badExitCode exe (code?.getD (-1)) so se))) := by
  constructor
  · intro hp
    simp [run_installer, hres, hp]
  · intro code? so se hp
    refine ⟨?_, ?_, ?_⟩
    · intro hemp
      simp [run_installer, hres, hp, hemp]
      split <;> simp_all
    · intro hne
      have hemp : inst.success_exit_codes.isEmpty = false := by
        cases hcodes : inst.success_exit_codes with
        | nil => exact absurd hcodes hne
        | cons a l => simp [hcodes]
      simp [run_installer, hres, hp, hemp]
      split <;> simp_all
    · intro hnotin
      cases hemp : inst.success_exit_codes.isEmpty with
      | true => simp [hemp] at hnotin; simp [run_installer, hres, hp, hemp, hnotin]
      | false => simp [hemp] at hnotin; simp [run_installer, hres, hp, hemp, hnotin]

/-- Witness for C5: with success_exit_codes = [42], exit code 0 is an error
    whose payload carries the captured stdout and stderr. -/
theorem run_installer_exit_code_policy_witness :
    resolve_path mfDir sampleInstaller42.path = .ok sampleInstaller42.path ∧
    worldExit0.runProc sampleInstaller42.path sampleInstaller42.args =
      .ran (some 0) ("out") ("err") ∧
    (run_installer mfDir sampleInstaller42 worldExit0).1 =
      .error (.badExitCode sampleInstaller42.path 0 ("out") ("err")) :=
  ⟨by rfl, by rfl,
   ((run_installer_exit_code_policy mfDir sampleInstaller42 worldExit0
       sampleInstaller42.path (by rfl)).2 (some 0) ("out") ("err")
       (by rfl)).2.2 (by decide)⟩

/-- C10: a child that terminates without an exit code is classified through
    the sentinel code -1: a failure under the default success set, a success
    exactly when -1 is declared in success_exit_codes. -/
theorem run_installer_sentinel_code (base : FPath) (inst : PayloadInstaller)
    (w : World) (exe : FPath) (so se : String)
    (hres : resolve_path base inst.path = .ok exe)
    (hp : w.runProc exe inst.args = .ran none so se) :
    ((run_installer base inst w).1 = .ok () ↔
      (-1 : Int) ∈
        (if inst.success_exit_codes.isEmpty then defaultOkCodes
         else inst.success_exit_codes)) ∧
    (inst.success_exit_codes = [] →
      (run_installer base inst w).1 = .error (.badExitCode exe (-1) so se)) := by
  constructor
  · cases hemp : inst.success_exit_codes.isEmpty with
    | true =>
      simp [run_installer, hres, hp, hemp]
      split <;> simp_all
    | false =>
      simp [run_installer, hres, hp, hemp]
      split <;> simp_all
  · intro hemp
    simp [run_installer, hres, hp, hemp, defaultOkCodes]

/-- Witness for C10: a signal-killed child under the default success set is a
    hard error at code -1. -/
theorem run_installer_sentinel_code_witness :
    resolve_path mfDir sampleInstallerDflt.path = .ok sampleInstallerDflt.path ∧
    worldNoExit.runProc sampleInstallerDflt.path sampleInstallerDflt.args =
      .ran none ("out") ("err") ∧
    (run_installer mfDir sampleInstallerDflt worldNoExit).1 =
      .error (.badExitCode sampleInstallerDflt.path (-1) ("out") ("err")) :=
  ⟨by rfl, by rfl,
   (run_installer_sentinel_code mfDir sampleInstallerDflt worldNoExit
      sampleInstallerDflt.path ("out") ("err") (by rfl) (by rfl)).2 (by rfl)⟩

/-- C7: a module whose detection rule is None always detects as not installed
    (ok false, never an error), so the install loop always takes the install
    branch for it (the begin marker is in the step's trace, never the skip). -/
theorem detect_none_false_always_installs (base : FPath) (m : ModuleManifest)
    (w : World) (h : m.detect = DetectRule.noRule) :
    detect_module_installed base m w = .ok false ∧
    (∀ man st, Event.beginModule m.id ∈ (installModuleStep base man m st w).2.2) := by
  constructor
  · simp [detect_module_installed, h]
  · intro man st
    unfold installModuleStep
    simp only [detect_module_installed, h]
    cases hk : m.kind with
    | msi =>
      cases hi : m.installer with
      | none => simp
      | some inst =>
        rcases hri : run_installer base inst w with ⟨res, w2, t1⟩
        cases res with
        | error e => simp [hri]
        | ok u =>
          rcases hac : apply_module_config base man m w2 with ⟨res2, w3, t2⟩
          cases res2 with
          | error e => simp [hri, hac]
          | ok u2 => simp [hri, hac]
    | exe =>
      cases hi : m.installer with
      | none => simp
      | some inst =>
        rcases hri : run_installer base inst w with ⟨res, w2, t1⟩
        cases res with
        | error e => simp [hri]
        | ok u =>
          rcases hac : apply_module_config base man m w2 with ⟨res2, w3, t2⟩
          cases res2 with
          | error e => simp [hri, hac]
          | ok u2 => simp [hri, hac]
    | fileCopy =>
      cases hpl : m.payload with
      | none => simp
      | some pl =>
        cases hrp : resolve_path base pl.path with
        | error e => simp [hrp]
        | ok src =>
          rcases hcp : copy_recursively src (fileCopyDst man.install_root m pl) w with ⟨res, w2, t1⟩
          cases res with
          | error e => simp [fileCopyDst] at hcp; simp [hrp, hcp]
          | ok u =>
            rcases hac : apply_module_config base man m w2 with ⟨res2, w3, t2⟩
            cases res2 with
            | error e => simp [fileCopyDst] at hcp; simp [hrp, hcp, hac]
            | ok u2 => simp [fileCopyDst] at hcp; simp [hrp, hcp, hac]

/-- Witness for C7 at a concrete detection-free module. -/
theorem detect_none_false_always_installs_witness :
    sampleModuleNoDetect.detect = DetectRule.noRule ∧
    detect_module_installed mfDir sampleModuleNoDetect baseWorld = .ok false ∧
    Event.beginModule "m1" ∈
      (installModuleStep mfDir manifestA sampleModuleNoDetect
        (InstallState.new 0 0 ("p") ("v")) baseWorld).2.2 :=
  ⟨rfl,
   (detect_none_false_always_installs mfDir sampleModuleNoDetect baseWorld rfl).1,
   (detect_none_false_always_installs mfDir sampleModuleNoDetect baseWorld rfl).2
     manifestA (InstallState.new 0 0 ("p") ("v"))⟩

theorem findEntry_setEntry_self (es : List (String × FsNode)) (c : String) (n : FsNode) :
    findEntry (setEntry es c n) c = some n := by
  induction es with
  | nil => simp [setEntry, findEntry]
  | cons e rest ih =>
    rcases e with ⟨k, v⟩
    by_cases h : k = c
    · simp [setEntry, findEntry, h]
    · simp [setEntry, findEntry, h, ih]

theorem findEntry_setEntry_ne (es : List (String × FsNode)) (c c' : String) (n : FsNode)
    (h : c' ≠ c) : findEntry (setEntry es c n) c' = findEntry es c' := by
  induction es with
  | nil => simp [setEntry, findEntry, h, Ne.symm h]
  | cons e rest ih =>
    rcases e with ⟨k, v⟩
    by_cases hk : k = c
    · subst hk
      simp [setEntry, findEntry, h, Ne.symm h]
    · by_cases hk2 : k = c'
      · subst hk2
        simp [setEntry, findEntry, h, hk]
      · simp [setEntry, findEntry, hk, hk2, ih]

theorem findEntry_removeEntry (es : List (String × FsNode)) (c c' : String) :
    findEntry (removeEntry es c) c' = if c' = c then none else findEntry es c' := by
  induction es with
  | nil => simp [removeEntry, findEntry]
  | cons e rest ih =>
    rcases e with ⟨k, v⟩
    by_cases hk : k = c
    · subst hk
      by_cases hc : c' = k
      · simp [removeEntry, findEntry, hc] at ih ⊢
        simpa using ih
      · simp [removeEntry, findEntry, hc] at ih ⊢
        simp [ih, Ne.symm hc]
    · by_cases hc : c' = k
      · subst hc
        simp [removeEntry, findEntry, hk, Ne.symm hk]
      · simp [removeEntry, findEntry, hk, Ne.symm hc] at ih ⊢
        simp [ih]

theorem findEntry_mem (es : List (String × FsNode)) (c : String) (n : FsNode)
    (h : findEntry es c = some n) : (c, n) ∈ es := by
  induction es with
  | nil => simp [findEntry] at h
  | cons e rest ih =>
    rcases e with ⟨k, v⟩
    by_cases hk : k = c
    · subst hk
      simp [findEntry] at h
      simp [h]
    · simp [findEntry, hk] at h
      exact List.mem_cons_of_mem _ (ih h)

theorem nodeWritable_emptyDir (cs : List String) : nodeWritable (.dir []) cs = true := by
  cases cs <;> simp [nodeWritable, findEntry]

theorem nodeWrite_self (root : FsNode) (p : List String) (m : FsNode)
    (h : nodeWritable root p = true) : nodeLookup (nodeWrite root p m) p = some m := by
  induction p generalizing root with
  | nil => simp [nodeWrite, nodeLookup]
  | cons c cs ih =>
    cases root with
    | file d => simp [nodeWritable] at h
    | dir es =>
      cases hf : findEntry es c with
      | some child =>
        simp only [nodeWritable, hf] at h
        simp [nodeWrite, nodeLookup, hf, findEntry_setEntry_self, ih child h]
      | none =>
        simp [nodeWrite, nodeLookup, hf, findEntry_setEntry_self,
          ih (.dir []) (nodeWritable_emptyDir cs)]

theorem nodeWrite_file_frame (q : List String) (root : FsNode) (p : List String)
    (m : FsNode) (d : FileData) (h : ¬(q <+: p))
    (hl : nodeLookup root p = some (.file d)) :
    nodeLookup (nodeWrite root q m) p = some (.file d) := by
  induction q generalizing root p with
  | nil => exact absurd (List.nil_prefix) h
  | cons c cs ih =>
    cases root with
    | file d0 => simpa [nodeWrite] using hl
    | dir es =>
      cases p with
      | nil => simp [nodeLookup] at hl
      | cons c' ps =>
        by_cases hc : c' = c
        · subst hc
          have hpre : ¬(cs <+: ps) := by
            intro hp
            exact h (List.cons_prefix_cons.mpr ⟨rfl, hp⟩)
          cases hf : findEntry es c' with
          | some child =>
            simp only [nodeLookup, hf] at hl
            simp [nodeWrite, nodeLookup, hf, findEntry_setEntry_self, ih _ _ hpre hl]
          | none => simp [nodeLookup, hf] at hl
        · cases hf : findEntry es c' with
          | some child =>
            simp only [nodeLookup, hf] at hl
            simp [nodeWrite, nodeLookup, findEntry_setEntry_ne es c c' _ hc, hf, hl]
          | none => simp [nodeLookup, hf] at hl

theorem nodeWrite_emptyDir_none (cs ps : List String) (m : FsNode)
    (h : Diverge cs ps) : nodeLookup (nodeWrite (.dir []) cs m) ps = none := by
  induction cs generalizing ps with
  | nil => exact absurd (List.nil_prefix) h.1
  | cons c cs' ih =>
    cases ps with
    | nil => exact absurd (List.nil_prefix) h.2
    | cons p0 ps' =>
      by_cases hc : p0 = c
      · subst hc
        have hd : Diverge cs' ps' := by
          constructor
          · intro hp; exact h.1 (List.cons_prefix_cons.mpr ⟨rfl, hp⟩)
          · intro hp; exact h.2 (List.cons_prefix_cons.mpr ⟨rfl, hp⟩)
        simp [nodeWrite, nodeLookup, setEntry, findEntry, ih _ hd]
      · have hc2 : ¬(c = p0) := fun hh => hc hh.symm
        simp [nodeWrite, nodeLookup, setEntry, findEntry, hc2]

theorem nodeWrite_diverge (q : List String) (root : FsNode) (p : List String)
    (m : FsNode) (h : Diverge q p) :
    nodeLookup (nodeWrite root q m) p = nodeLookup root p := by
  induction q generalizing root p with
  | nil => exact absurd (List.nil_prefix) h.1
  | cons c cs ih =>
    cases root with
    | file d0 => simp [nodeWrite]
    | dir es =>
      cases p with
      | nil => exact absurd (List.nil_prefix) h.2
      | cons c' ps =>
        by_cases hc : c' = c
        · subst hc
          have hd : Diverge cs ps := by
            constructor
            · intro hp; exact h.1 (List.cons_prefix_cons.mpr ⟨rfl, hp⟩)
            · intro hp; exact h.2 (List.cons_prefix_cons.mpr ⟨rfl, hp⟩)
          cases hf : findEntry es c' with
          | some child =>
            simp [nodeWrite, nodeLookup, hf, findEntry_setEntry_self, ih _ _ hd]
          | none =>
            simp [nodeWrite, nodeLookup, hf, findEntry_setEntry_self,
              nodeWrite_emptyDir_none cs ps m hd]
        · simp [nodeWrite, nodeLookup, findEntry_setEntry_ne es c c' _ hc]

theorem nodeWrite_dirPres (q : List String) (root : FsNode) (pre : List String)
    (m : FsNode) (es0 : List (String × FsNode))
    (h : ∃ x rest, q = pre ++ x :: rest)
    (hl : nodeLookup root pre = some (.dir es0)) :
    ∃ es1, nodeLookup (nodeWrite root q m) pre = some (.dir es1) := by
  rcases h with ⟨x, rest, hq⟩
  subst hq
  induction pre generalizing root with
  | nil =>
    simp only [nodeLookup] at hl
    cases root with
    | file d => exact absurd hl (by simp)
    | dir es => exact ⟨_, rfl⟩
  | cons c cs ih =>
    cases root with
    | file d => simp [nodeLookup] at hl
    | dir es =>
      cases hf : findEntry es c with
      | some child =>
        simp only [nodeLookup, hf] at hl
        rcases ih child hl with ⟨es1, h1⟩
        exact ⟨es1, by simp [nodeWrite, nodeLookup, hf, findEntry_setEntry_self, h1]⟩
      | none => simp [nodeLookup, hf] at hl

theorem nodeEnsure_file_frame (q : List String) (root : FsNode) (p : List String)
    (d : FileData) (hl : nodeLookup root p = some (.file d)) :
    nodeLookup (nodeEnsureDir root q) p = some (.file d) := by
  induction q generalizing root p with
  | nil => simpa [nodeEnsureDir] using hl
  | cons c cs ih =>
    cases root with
    | file d0 => simpa [nodeEnsureDir] using hl
    | dir es =>
      cases p with
      | nil => simp [nodeLookup] at hl
      | cons c' ps =>
        by_cases hc : c' = c
        · subst hc
          cases hf : findEntry es c' with
          | some child =>
            simp only [nodeLookup, hf] at hl
            simp [nodeEnsureDir, nodeLookup, hf, findEntry_setEntry_self, ih _ _ hl]
          | none => simp [nodeLookup, hf] at hl
        · cases hf : findEntry es c' with
          | some child =>
            simp only [nodeLookup, hf] at hl
            simp [nodeEnsureDir, nodeLookup, findEntry_setEntry_ne es c c' _ hc, hf, hl]
          | none => simp [nodeLookup, hf] at hl

theorem nodeEnsure_emptyDir_none (cs ps : List String) (h : Diverge cs ps) :
    nodeLookup (nodeEnsureDir (.dir []) cs) ps = none := by
  induction cs generalizing ps with
  | nil => exact absurd (List.nil_prefix) h.1
  | cons c cs' ih =>
    cases ps with
    | nil => exact absurd (List.nil_prefix) h.2
    | cons p0 ps' =>
      by_cases hc : p0 = c
      · subst hc
        have hd : Diverge cs' ps' := by
          constructor
          · intro hp; exact h.1 (List.cons_prefix_cons.mpr ⟨rfl, hp⟩)
          · intro hp; exact h.2 (List.cons_prefix_cons.mpr ⟨rfl, hp⟩)
        simp [nodeEnsureDir, nodeLookup, setEntry, findEntry, ih _ hd]
      · have hc2 : ¬(c = p0) := fun hh => hc hh.symm
        simp [nodeEnsureDir, nodeLookup, setEntry, findEntry, hc2]

theorem nodeEnsure_diverge (q : List String) (root : FsNode) (p : List String)
    (h : Diverge q p) :
    nodeLookup (nodeEnsureDir root q) p = nodeLookup root p := by
  induction q generalizing root p with
  | nil => exact absurd (List.nil_prefix) h.1
  | cons c cs ih =>
    cases root with
    | file d0 => simp [nodeEnsureDir]
    | dir es =>
      cases p with
      | nil => exact absurd (List.nil_prefix) h.2
      | cons c' ps =>
        by_cases hc : c' = c
        · subst hc
          have hd : Diverge cs ps := by
            constructor
            · intro hp; exact h.1 (List.cons_prefix_cons.mpr ⟨rfl, hp⟩)
            · intro hp; exact h.2 (List.cons_prefix_cons.mpr ⟨rfl, hp⟩)
          cases hf : findEntry es c' with
          | some child =>
            simp [nodeEnsureDir, nodeLookup, hf, findEntry_setEntry_self, ih _ _ hd]
          | none =>
            simp [nodeEnsureDir, nodeLookup, hf, findEntry_setEntry_self,
              nodeEnsure_emptyDir_none cs ps hd]
        · simp [nodeEnsureDir, nodeLookup, findEntry_setEntry_ne es c c' _ hc]

theorem nodeEnsure_emptyDir_self (cs : List String) :
    nodeLookup (nodeEnsureDir (.dir []) cs) cs = some (.dir []) := by
  induction cs with
  | nil => simp [nodeEnsureDir, nodeLookup]
  | cons c cs' ih =>
    simp [nodeEnsureDir, nodeLookup, setEntry, findEntry, ih]

theorem nodeEnsure_create (q : List String) (root : FsNode)
    (hw : nodeWritable root q = true) (hn : nodeLookup root q = none) :
    nodeLookup (nodeEnsureDir root q) q = some (.dir []) := by
  induction q generalizing root with
  | nil => simp [nodeLookup] at hn
  | cons c cs ih =>
    cases root with
    | file d => simp [nodeWritable] at hw
    | dir es =>
      cases hf : findEntry es c with
      | some child =>
        simp only [nodeWritable, hf] at hw
        simp only [nodeLookup, hf] at hn
        simp [nodeEnsureDir, nodeLookup, hf, findEntry_setEntry_self, ih child hw hn]
      | none =>
        simp [nodeEnsureDir, nodeLookup, hf, findEntry_setEntry_self,
          nodeEnsure_emptyDir_self cs]

theorem nodeEnsure_keep_dir (q : List String) (root : FsNode)
    (es : List (String × FsNode)) (hl : nodeLookup root q = some (.dir es)) :
    nodeLookup (nodeEnsureDir root q) q = some (.dir es) := by
  induction q generalizing root with
  | nil =>
    simp only [nodeLookup, Option.some.injEq] at hl
    subst hl
    simp [nodeEnsureDir, nodeLookup]
  | cons c cs ih =>
    cases root with
    | file d => simp [nodeLookup] at hl
    | dir es2 =>
      cases hf : findEntry es2 c with
      | some child =>
        simp only [nodeLookup, hf] at hl
        simp [nodeEnsureDir, nodeLookup, hf, findEntry_setEntry_self, ih child hl]
      | none => simp [nodeLookup, hf] at hl

theorem nodeEnsure_dirPres (q : List String) (root : FsNode) (pre : List String)
    (es0 : List (String × FsNode)) (h : ∃ x rest, q = pre ++ x :: rest)
    (hl : nodeLookup root pre = some (.dir es0)) :
    ∃ es1, nodeLookup (nodeEnsureDir root q) pre = some (.dir es1) := by
  rcases h with ⟨x, rest, hq⟩
  subst hq
  induction pre generalizing root with
  | nil =>
    simp only [nodeLookup] at hl
    cases root with
    | file d => exact absurd hl (by simp)
    | dir es => exact ⟨_, rfl⟩
  | cons c cs ih =>
    cases root with
    | file d => simp [nodeLookup] at hl
    | dir es =>
      cases hf : findEntry es c with
      | some child =>
        simp only [nodeLookup, hf] at hl
        rcases ih child hl with ⟨es1, h1⟩
        exact ⟨es1, by simp [nodeEnsureDir, nodeLookup, hf, findEntry_setEntry_self, h1]⟩
      | none => simp [nodeLookup, hf] at hl

theorem nodeLookup_append (root : FsNode) (p q : List String) :
    nodeLookup root (p ++ q) = (nodeLookup root p).bind (fun n => nodeLookup n q) := by
  induction p generalizing root with
  | nil => simp [nodeLookup]
  | cons c cs ih =>
    cases root with
    | file d => simp [nodeLookup]
    | dir es =>
      cases hf : findEntry es c with
      | some child => simp [nodeLookup, hf, ih]
      | none => simp [nodeLookup, hf]

theorem lookup_dir_child (root : FsNode) (q : List String)
    (es : List (String × FsNode)) (c : String)
    (hl : nodeLookup root q = some (.dir es)) :
    nodeLookup root (q ++ [c]) = findEntry es c := by
  rw [nodeLookup_append, hl]
  cases hf : findEntry es c <;> simp [nodeLookup, hf]

theorem lookup_some_dir_writable (root : FsNode) (q : List String)
    (es : List (String × FsNode)) (c : String) (rest : List String)
    (hl : nodeLookup root q = some (.dir es)) (hf : findEntry es c = none) :
    nodeWritable root (q ++ c :: rest) = true := by
  induction q generalizing root with
  | nil =>
    simp only [nodeLookup, Option.some.injEq] at hl
    subst hl
    simp [nodeWritable, hf]
  | cons c0 cs ih =>
    cases root with
    | file d => simp [nodeLookup] at hl
    | dir es2 =>
      cases hf2 : findEntry es2 c0 with
      | some child =>
        simp only [nodeLookup, hf2] at hl
        simp [nodeWritable, hf2, ih child hl]
      | none => simp [nodeLookup, hf2] at hl

theorem diverge_single (dst : List String) (c c' : String) (l : List String)
    (h : c ≠ c') : Diverge (dst ++ [c]) (dst ++ c' :: l) := by
  constructor
  · intro hp
    rw [List.prefix_append_right_inj] at hp
    rcases List.cons_prefix_cons.mp hp with ⟨he, _⟩
    exact h he
  · intro hp
    rw [List.prefix_append_right_inj] at hp
    rcases List.cons_prefix_cons.mp hp with ⟨he, _⟩
    exact h he.symm

theorem diverge_extend (dst l p : List String) (h : Diverge dst p) :
    Diverge (dst ++ l) p := by
  constructor
  · intro hp
    exact h.1 ((List.prefix_append dst l).trans hp)
  · intro hp
    rcases List.prefix_or_prefix_of_prefix hp (List.prefix_append dst l) with h2 | h2
    · exact h.2 h2
    · exact h.1 h2

theorem keysNodupF_head (c0 : String) (n0 : FsNode) (rest : List (String × FsNode))
    (h : keysNodupF ((c0, n0) :: rest) = true) :
    (∀ e ∈ rest, e.1 ≠ c0) ∧ keysNodupF rest = true := by
  simp only [keysNodupF, Bool.and_eq_true, List.all_eq_true] at h
  refine ⟨?_, h.2⟩
  intro e he
  have := h.1 e he
  simpa using this

theorem listWF_mem (es : List (String × FsNode)) (c : String) (n : FsNode)
    (hwf : listWF es = true) (hm : (c, n) ∈ es) : nodeWF n = true := by
  induction es with
  | nil => simp at hm
  | cons e rest ih =>
    rcases e with ⟨k, v⟩
    simp only [listWF, Bool.and_eq_true] at hwf
    rcases List.mem_cons.mp hm with h1 | h1
    · cases h1
      exact hwf.1
    · exact ih hwf.2 h1

theorem ceDiv (es : List (String × FsNode)) (dst p : List String) :
    ∀ root, (∀ e ∈ es, CopyDiv e.2) → (∀ e ∈ es, Diverge (dst ++ [e.1]) p) →
      nodeLookup (copyEntriesN es root dst) p = nodeLookup root p := by
  induction es with
  | nil => intro root _ _; simp [copyEntriesN]
  | cons e rest ihl =>
    rcases e with ⟨c0, n0⟩
    intro root ih hd
    simp only [copyEntriesN]
    rw [ihl _ (fun e he => ih e (List.mem_cons_of_mem _ he))
          (fun e he => hd e (List.mem_cons_of_mem _ he))]
    exact ih (c0, n0) (List.mem_cons_self _ _) root (dst ++ [c0]) p
      (hd (c0, n0) (List.mem_cons_self _ _))

theorem ceDir (es : List (String × FsNode)) (dst pre : List String) (x : String)
    (restPath : List String) (hq : dst = pre ++ x :: restPath) :
    ∀ root es0, (∀ e ∈ es, CopyDir e.2) → nodeLookup root pre = some (.dir es0) →
      ∃ es1, nodeLookup (copyEntriesN es root dst) pre = some (.dir es1) := by
  induction es with
  | nil => intro root es0 _ hl; exact ⟨es0, by simpa [copyEntriesN] using hl⟩
  | cons e rest ihl =>
    rcases e with ⟨c0, n0⟩
    intro root es0 ih hl
    simp only [copyEntriesN]
    rcases ih (c0, n0) (List.mem_cons_self _ _) root (dst ++ [c0]) pre es0
        ⟨x, restPath ++ [c0], by rw [hq]; simp⟩ hl with ⟨es1, h1⟩
    exact ihl _ es1 (fun e he => ih e (List.mem_cons_of_mem _ he)) h1

theorem cePlace (es : List (String × FsNode)) (dst : List String) :
    ∀ root, (∀ e ∈ es, CopyPlace e.2) → (∀ e ∈ es, CopyDiv e.2) →
      (∀ e ∈ es, CopyDir e.2) →
      keysNodupF es = true → listWF es = true →
      ∀ esd, nodeLookup root dst = some (.dir esd) →
        (∀ e ∈ es, findEntry esd e.1 = none) →
        ∀ c n, (c, n) ∈ es → ∀ rel d, nodeLookup n rel = some (.file d) →
          nodeLookup (copyEntriesN es root dst) (dst ++ c :: rel) = some (.file d) := by
  induction es with
  | nil =>
    intro root _ _ _ _ _ _ _ _ c n hm
    simp at hm
  | cons e rest ihl =>
    rcases e with ⟨c0, n0⟩
    intro root ihP ihD ihR hnodup hwf esd hdir hnone c n hm rel d hrel
    simp only [copyEntriesN]
    have hnd := keysNodupF_head c0 n0 rest hnodup
    have hwf2 : nodeWF n0 = true ∧ listWF rest = true := by
      simp only [listWF, Bool.and_eq_true] at hwf
      exact hwf
    have hslot : nodeLookup root (dst ++ [c0]) = none := by
      rw [lookup_dir_child root dst esd c0 hdir]
      exact hnone (c0, n0) (List.mem_cons_self _ _)
    have hwr : nodeWritable root (dst ++ [c0]) = true := by
      have h2 := lookup_some_dir_writable root dst esd c0 [] hdir
        (hnone _ (List.mem_cons_self _ _))
      simpa using h2
    rcases List.mem_cons.mp hm with hhead | htail
    · injection hhead with h1 h2
      subst h1
      subst h2
      have hplaced := ihP (c, n) (List.mem_cons_self _ _) root (dst ++ [c])
        hwf2.1 hwr hslot rel d hrel
      have hdiv2 : ∀ e ∈ rest, Diverge (dst ++ [e.1]) (dst ++ [c] ++ rel) := by
        intro e he
        have hne : e.1 ≠ c := hnd.1 e he
        have h3 := diverge_single dst e.1 c rel hne
        simpa [List.append_assoc] using h3
      have hpath : dst ++ c :: rel = dst ++ [c] ++ rel := by simp
      rw [hpath,
        ceDiv rest dst (dst ++ [c] ++ rel) _
          (fun e he => ihD e (List.mem_cons_of_mem _ he)) hdiv2]
      simpa [List.append_assoc] using hplaced
    · rcases ihR (c0, n0) (List.mem_cons_self _ _) root (dst ++ [c0]) dst esd
          ⟨c0, [], rfl⟩ hdir with ⟨es1, hdir1⟩
      have hnone1 : ∀ e ∈ rest, findEntry es1 e.1 = none := by
        intro e he
        have hne : e.1 ≠ c0 := hnd.1 e he
        have hdv : Diverge (dst ++ [c0]) (dst ++ [e.1]) := by
          have h3 := diverge_single dst c0 e.1 [] (Ne.symm hne)
          simpa using h3
        have h2 : nodeLookup (copyNodeN n0 root (dst ++ [c0])) (dst ++ [e.1]) =
            nodeLookup root (dst ++ [e.1]) :=
          ihD (c0, n0) (List.mem_cons_self _ _) root (dst ++ [c0]) (dst ++ [e.1]) hdv
        rw [← lookup_dir_child (copyNodeN n0 root (dst ++ [c0])) dst es1 e.1 hdir1,
          h2, lookup_dir_child root dst esd e.1 hdir]
        exact hnone e (List.mem_cons_of_mem _ he)
      exact ihl _ (fun e he => ihP e (List.mem_cons_of_mem _ he))
        (fun e he => ihD e (List.mem_cons_of_mem _ he))
        (fun e he => ihR e (List.mem_cons_of_mem _ he))
        hnd.2 hwf2.2 es1 hdir1 hnone1 c n htail rel d hrel

theorem copyProps (n : FsNode) : CopyPlace n ∧ CopyDiv n ∧ CopyDir n := by
  cases n with
  | file d =>
    refine ⟨?_, ?_, ?_⟩
    · intro root dst _ hw hn rel d2 hrel
      cases rel with
      | nil =>
        simp only [nodeLookup, Option.some.injEq, FsNode.file.injEq] at hrel
        subst hrel
        simpa [copyNodeN] using nodeWrite_self root dst (.file d) hw
      | cons r rs => simp [nodeLookup] at hrel
    · intro root dst p hd
      simpa only [copyNodeN] using nodeWrite_diverge dst root p (.file d) hd
    · intro root dst pre es0 hq hl
      simpa only [copyNodeN] using nodeWrite_dirPres dst root pre (.file d) es0 hq hl
  | dir es =>
    have ihall : ∀ e ∈ es, CopyPlace e.2 ∧ CopyDiv e.2 ∧ CopyDir e.2 := by
      intro e he
      exact copyProps e.2
    refine ⟨?_, ?_, ?_⟩
    · intro root dst hwfn hw hn rel d hrel
      have hsplit : keysNodupF es = true ∧ listWF es = true := by
        simp only [nodeWF, Bool.and_eq_true] at hwfn
        exact hwfn
      cases rel with
      | nil => simp [nodeLookup] at hrel
      | cons c rs =>
        simp only [nodeLookup] at hrel
        cases hf : findEntry es c with
        | none => rw [hf] at hrel; simp at hrel
        | some n0 =>
          rw [hf] at hrel
          have hm := findEntry_mem es c n0 hf
          simp only [copyNodeN]
          have hens := nodeEnsure_create dst root hw hn
          exact cePlace es dst (nodeEnsureDir root dst)
            (fun e he => (ihall e he).1) (fun e he => (ihall e he).2.1)
            (fun e he => (ihall e he).2.2)
            hsplit.1 hsplit.2 [] hens (fun e _ => rfl) c n0 hm rs d hrel
    · intro root dst p hd
      simp only [copyNodeN]
      rw [ceDiv es dst p _ (fun e he => (ihall e he).2.1)
            (fun e _ => diverge_extend dst [e.1] p hd)]
      exact nodeEnsure_diverge dst root p hd
    · intro root dst pre es0 hq hl
      rcases hq with ⟨x, restq, hq⟩
      simp only [copyNodeN]
      rcases nodeEnsure_dirPres dst root pre es0 ⟨x, restq, hq⟩ hl with ⟨es1, h1⟩
      exact ceDir es dst pre x restq hq _ es1 (fun e he => (ihall e he).2.2) h1
termination_by sizeOf n
decreasing_by
  simp_wf
  have h1 := List.sizeOf_lt_of_mem he
  rcases e with ⟨ck, nv⟩
  simp only [Prod.mk.sizeOf_spec] at h1
  simp only []
  omega

theorem delete_hklm_run_trace (n : String) (w : World) :
    (delete_hklm_run n w).2.2 = [Event.deleteAutorun n] := by
  unfold delete_hklm_run
  cases h : regFind w.reg .hklm runKeyPath <;> simp [h]

/-- C8 theorem (trial): uninstall with no state file but autorun declared
    still attempts removal of the declared autorun entry. -/
theorem uninstall_fallback_autorun (cli : Cli) (w : World) (man : BundleManifest)
    (N : String) (sp : FPath)
    (hadmin : (!allow_non_admin_for_tests w && !w.isAdmin) = false)
    (hman : load_manifest cli.manifest w = .ok man)
    (hsp : default_state_file w = .ok sp)
    (hnostate : w.fs.existsPath sp = false)
    (hen : man.autorun.enabled = true)
    (hname : man.autorun.name = N) (hne : N ≠ "") :
    Event.deleteAutorun N ∈ (uninstall cli w).2.2 := by
  unfold uninstall
  rw [hadmin]
  simp only [Bool.false_eq_true, if_false, hman]
  simp only [hsp]
  have hread : read_state_file sp w = .ok none := by
    simp [read_state_file, hnostate]
  simp only [hread]
  simp only [Option.isNone_none, hen, and_true, if_pos trivial, true_and]
  rw [hname]
  simp only [if_neg hne]
  rcases hd : delete_hklm_run N w with ⟨res2, w2, t2⟩
  have ht2 : t2 = [Event.deleteAutorun N] := by
    have := delete_hklm_run_trace N w
    rw [hd] at this
    exact this
  subst ht2
  rcases h3 : remove_plugins w2 with ⟨res3, w3, t3⟩
  cases res3 with
  | error e => simp [h3]
  | ok u =>
    rcases h4 : uninstallModules (baseDirOf cli) man.install_root man.modules w3 with ⟨res4, w4, t4⟩
    cases res4 with
    | error e => simp [h3, h4]
    | ok u2 =>
      cases h5 : program_data_dir (removeDirAllIfExists man.install_root w4) with
      | error e => simp [h3, h4, h5]
      | ok dd => simp [h3, h4, h5]

theorem detect_loop_all_ok (base : FPath) (w : World) (b : ModuleManifest → Bool) :
    ∀ mods : List ModuleManifest,
      (∀ m ∈ mods, m.enabled = true →
        detect_module_installed base m w = .ok (b m)) →
      detect_loop base mods w =
        .ok ((mods.filter (fun m => m.enabled)).map (fun m => detectLine m (b m))) := by
  intro mods
  induction mods with
  | nil => intro _; simp [detect_loop]
  | cons m rest ih =>
    intro hdet
    cases he : m.enabled with
    | false => simpa [detect_loop, he] using ih (fun m2 h2 => hdet m2 (List.mem_cons_of_mem _ h2))
    | true =>
      have h1 := hdet m (List.mem_cons_self _ _) he
      simp [detect_loop, he, h1,
        ih (fun m2 h2 => hdet m2 (List.mem_cons_of_mem _ h2))]

theorem detect_loop_error (base : FPath) (w : World) (e : Err) :
    ∀ mods : List ModuleManifest,
      detect_loop base mods w = .error e →
      ∃ m ∈ mods, m.enabled = true ∧ detect_module_installed base m w = .error e := by
  intro mods
  induction mods with
  | nil => intro h; simp [detect_loop] at h
  | cons m rest ih =>
    intro h
    cases he : m.enabled with
    | false =>
      rw [detect_loop] at h
      simp only [he, Bool.false_eq_true, if_false] at h
      rcases ih h with ⟨m2, hm2, h2⟩
      exact ⟨m2, List.mem_cons_of_mem _ hm2, h2⟩
    | true =>
      rw [detect_loop] at h
      simp only [he, if_true] at h
      cases hd : detect_module_installed base m w with
      | error e2 =>
        rw [hd] at h
        simp at h
        exact ⟨m, List.mem_cons_self _ _, he, by rw [hd, h]⟩
      | ok bv =>
        rw [hd] at h
        simp only [] at h
        cases hl : detect_loop base rest w with
        | error e2 =>
          rw [hl] at h
          simp at h
          rcases ih (by rw [hl, h]) with ⟨m2, hm2, h2⟩
          exact ⟨m2, List.mem_cons_of_mem _ hm2, h2⟩
        | ok lines => rw [hl] at h; simp at h

/-- C9 theorem (trial). -/
theorem detect_prints_all_and_mutates_nothing (cli : Cli) (w : World)
    (man : BundleManifest) (hman : load_manifest cli.manifest w = .ok man) :
    ((detectCmd cli w).2.1 = w ∧ (detectCmd cli w).2.2 = []) ∧
    (∀ b : ModuleManifest → Bool,
      (∀ m ∈ man.modules, m.enabled = true →
        detect_module_installed (baseDirOf cli) m w = .ok (b m)) →
      (detectCmd cli w).1 =
        .ok ((man.modules.filter (fun m => m.enabled)).map
          (fun m => detectLine m (b m)))) ∧
    (∀ e, (detectCmd cli w).1 = .error e →
      (∃ m ∈ man.modules, m.enabled = true ∧
        detect_module_installed (baseDirOf cli) m w = .error e) ∨
      load_manifest cli.manifest w = .error e) := by
  refine ⟨?_, ?_, ?_⟩
  · unfold detectCmd
    simp only [hman]
    cases hl : detect_loop (baseDirOf cli) man.modules w <;> simp
  · intro b hdet
    unfold detectCmd
    simp only [hman, detect_loop_all_ok (baseDirOf cli) w b man.modules hdet]
  · intro e herr
    unfold detectCmd at herr
    simp only [hman] at herr
    cases hl : detect_loop (baseDirOf cli) man.modules w with
    | error e2 =>
      rw [hl] at herr
      simp at herr
      left
      exact detect_loop_error (baseDirOf cli) w e man.modules (by rw [hl, herr])
    | ok lines => rw [hl] at herr; simp at herr

theorem uninstall_fallback_autorun_witness :
    load_manifest cliA.manifest worldD = .ok manifestD ∧
    worldD.fs.existsPath statePathA = false ∧
    manifestD.autorun.enabled = true ∧
    manifestD.autorun.name = "AutoX" ∧
    Event.deleteAutorun "AutoX" ∈ (uninstall cliA worldD).2.2 :=
  ⟨rfl, rfl, rfl, rfl,
   uninstall_fallback_autorun cliA worldD manifestD "AutoX" statePathA rfl rfl rfl rfl
     rfl rfl (by decide)⟩

theorem detect_prints_all_witness :
    load_manifest cliA.manifest worldE = .ok manifestE ∧
    (detectCmd cliA worldE).2.1 = worldE ∧
    (detectCmd cliA worldE).2.2 = [] ∧
    (detectCmd cliA worldE).1 =
      .ok [detectLine moduleE1 true, detectLine moduleE2 false] := by
  have hdet : ∀ m ∈ manifestE.modules, m.enabled = true →
      detect_module_installed (baseDirOf cliA) m worldE = .ok (m.id == "e1") := by
    intro m hm _
    rcases List.mem_cons.mp hm with h | h
    · subst h; rfl
    · rcases List.mem_cons.mp h with h2 | h2
      · subst h2; rfl
      · simp at h2
  have hth := detect_prints_all_and_mutates_nothing cliA worldE manifestE rfl
  refine ⟨rfl, hth.1.1, hth.1.2, ?_⟩
  have h2 := hth.2.1 (fun m => m.id == "e1") hdet
  exact h2.trans (by rfl)

theorem markers_append (t1 t2 : List Event) :
    markers (t1 ++ t2) = markers t1 ++ markers t2 := by
  simp [markers, List.filterMap_append]

theorem wroteStateCount_append (t1 t2 : List Event) :
    wroteStateCount (t1 ++ t2) = wroteStateCount t1 + wroteStateCount t2 := by
  simp [wroteStateCount, List.filter_append]

theorem markers_nil : markers [] = [] := rfl

theorem wroteStateCount_nil : wroteStateCount [] = 0 := rfl

theorem run_installer_trace_shape (base : FPath) (inst : PayloadInstaller) (w : World)
    (P : List Event → Prop) (h0 : P []) (h1 : ∀ e, P [Event.ranInstaller e]) :
    P (run_installer base inst w).2.2 := by
  unfold run_installer
  split
  · exact h0
  · split
    · exact h1 _
    · dsimp only
      split <;> split <;> exact h1 _

theorem run_installer_trace (base : FPath) (inst : PayloadInstaller) (w : World) :
    markers (run_installer base inst w).2.2 = [] ∧
    wroteStateCount (run_installer base inst w).2.2 = 0 :=
  ⟨run_installer_trace_shape base inst w (fun tr => markers tr = [])
      (by simp [markers]) (fun e => by simp [markers]),
   run_installer_trace_shape base inst w (fun tr => wroteStateCount tr = 0)
      (by simp [wroteStateCount]) (fun e => by simp [wroteStateCount])⟩

theorem copy_recursively_trace (src dst : FPath) (w : World) :
    markers (copy_recursively src dst w).2.2 = [] ∧
    wroteStateCount (copy_recursively src dst w).2.2 = 0 := by
  unfold copy_recursively
  cases h : w.fs.lookup src <;> simp [markers, wroteStateCount]

theorem apply_file_replacements_trace (install_root : FPath) (frs : List FileReplacement)
    (w : World) : (apply_file_replacements install_root frs w).2.2 = [] := by
  induction frs generalizing w with
  | nil => simp [apply_file_replacements]
  | cons fr rest ih =>
    rw [apply_file_replacements]
    cases hr : resolve_path install_root fr.file with
    | error e => simp
    | ok target =>
      simp only []
      by_cases he : w.fs.existsPath target
      · simp only [he, if_true]
        cases hl : w.fs.lookup target with
        | none => simp
        | some n =>
          cases n with
          | file d =>
            cases d with
            | text s => simp [ih]
            | manifestJson m => simp
            | stateJson st => simp
            | pluginJson a => simp
          | dir es => simp
      · simp only [he, Bool.false_eq_true, if_false]
        exact ih w

theorem apply_module_config_trace (base : FPath) (man : BundleManifest)
    (m : ModuleManifest) (w : World) :
    (apply_module_config base man m w).2.2 = [] := by
  unfold apply_module_config
  cases hd : default_data_root w with
  | error e => simp
  | ok dflt =>
    cases m.config.data_subdir <;> simp [apply_file_replacements_trace]

theorem markers_begin_cons (i : String) (t : List Event) :
    markers (.beginModule i :: t) = i :: markers t := by
  simp [markers]

theorem wroteStateCount_begin_cons (i : String) (t : List Event) :
    wroteStateCount (.beginModule i :: t) = wroteStateCount t := by
  simp [wroteStateCount]

theorem markers_skip_single (i : String) : markers [Event.skipModule i] = [i] := by
  simp [markers]

theorem wroteStateCount_skip_single (i : String) :
    wroteStateCount [Event.skipModule i] = 0 := by
  simp [wroteStateCount]

theorem installModuleStep_shape (base : FPath) (man : BundleManifest)
    (m : ModuleManifest) (st : InstallState) (w : World)
    (P : Except Err InstallState × World × List Event → Prop)
    (h1 : ∀ e, P (.error e, w, []))
    (h2 : ∀ st2, P (.ok st2, w, [.skipModule m.id]))
    (h3 : ∀ res w2 t, markers t = [] → wroteStateCount t = 0 →
      P (res, w2, .beginModule m.id :: t)) :
    P (installModuleStep base man m st w) := by
  unfold installModuleStep
  cases hdet : detect_module_installed base m w with
  | error e => exact h1 e
  | ok b =>
    cases b with
    | true => exact h2 _
    | false =>
      cases hk : m.kind with
      | msi =>
        cases hi : m.installer with
        | none => exact h3 _ _ [] (by simp [markers]) (by simp [wroteStateCount])
        | some inst =>
          rcases hri : run_installer base inst w with ⟨res, w2, t1⟩
          have htr := run_installer_trace base inst w
          rw [hri] at htr
          have htm : markers t1 = [] := htr.1
          have htn : wroteStateCount t1 = 0 := htr.2
          simp only [hri]
          cases res with
          | error e => exact h3 _ _ t1 htm htn
          | ok u =>
            rcases hac : apply_module_config base man m w2 with ⟨res2, w3, t2⟩
            have htc := apply_module_config_trace base man m w2
            rw [hac] at htc
            subst htc
            simp only [hac]
            cases res2 with
            | error e =>
              exact h3 _ _ (t1 ++ []) (by simp [markers_append, markers_nil, htm])
                (by simp [wroteStateCount_append, wroteStateCount_nil, htn])
            | ok u2 =>
              exact h3 _ _ (t1 ++ []) (by simp [markers_append, markers_nil, htm])
                (by simp [wroteStateCount_append, wroteStateCount_nil, htn])
      | exe =>
        cases hi : m.installer with
        | none => exact h3 _ _ [] (by simp [markers]) (by simp [wroteStateCount])
        | some inst =>
          rcases hri : run_installer base inst w with ⟨res, w2, t1⟩
          have htr := run_installer_trace base inst w
          rw [hri] at htr
          have htm : markers t1 = [] := htr.1
          have htn : wroteStateCount t1 = 0 := htr.2
          simp only [hri]
          cases res with
          | error e => exact h3 _ _ t1 htm htn
          | ok u =>
            rcases hac : apply_module_config base man m w2 with ⟨res2, w3, t2⟩
            have htc := apply_module_config_trace base man m w2
            rw [hac] at htc
            subst htc
            simp only [hac]
            cases res2 with
            | error e =>
              exact h3 _ _ (t1 ++ []) (by simp [markers_append, markers_nil, htm])
                (by simp [wroteStateCount_append, wroteStateCount_nil, htn])
            | ok u2 =>
              exact h3 _ _ (t1 ++ []) (by simp [markers_append, markers_nil, htm])
                (by simp [wroteStateCount_append, wroteStateCount_nil, htn])
      | fileCopy =>
        cases hpl : m.payload with
        | none =>
          exact h3 (.error (.missingPayloadCfg m.id)) w [] (by simp [markers])
            (by simp [wroteStateCount])
        | some pl =>
          dsimp only
          cases hrp : resolve_path base pl.path with
          | error e =>
            exact h3 (.error e) w [] (by simp [markers]) (by simp [wroteStateCount])
          | ok src =>
            dsimp only
            rcases hcp : copy_recursively src
                (match pl.install_subdir with
                 | some subdir => man.install_root.join1 subdir
                 | none => man.install_root.join1 m.id) w with ⟨res, w2, t1⟩
            have htr := copy_recursively_trace src
                (match pl.install_subdir with
                 | some subdir => man.install_root.join1 subdir
                 | none => man.install_root.join1 m.id) w
            rw [hcp] at htr
            have htm : markers t1 = [] := htr.1
            have htn : wroteStateCount t1 = 0 := htr.2
            cases res with
            | error e => exact h3 _ _ t1 htm htn
            | ok u =>
              rcases hac : apply_module_config base man m w2 with ⟨res2, w3, t2⟩
              have htc := apply_module_config_trace base man m w2
              rw [hac] at htc
              subst htc
              simp only [hac]
              cases res2 with
              | error e =>
                exact h3 _ _ (t1 ++ []) (by simp [markers_append, markers_nil, htm])
                  (by simp [wroteStateCount_append, wroteStateCount_nil, htn])
              | ok u2 =>
                exact h3 _ _ (t1 ++ []) (by simp [markers_append, markers_nil, htm])
                  (by simp [wroteStateCount_append, wroteStateCount_nil, htn])

theorem installModuleStep_trace (base : FPath) (man : BundleManifest)
    (m : ModuleManifest) (st : InstallState) (w : World) :
    (markers (installModuleStep base man m st w).2.2 <+: [m.id]) ∧
    ((∃ st2, (installModuleStep base man m st w).1 = .ok st2) →
      markers (installModuleStep base man m st w).2.2 = [m.id]) ∧
    wroteStateCount (installModuleStep base man m st w).2.2 = 0 := by
  apply installModuleStep_shape base man m st w
    (fun r => (markers r.2.2 <+: [m.id]) ∧
      ((∃ st2, r.1 = .ok st2) → markers r.2.2 = [m.id]) ∧ wroteStateCount r.2.2 = 0)
  · intro e
    refine ⟨?_, ?_, ?_⟩
    · rw [markers_nil]
      exact List.nil_prefix
    · rintro ⟨st2, hst⟩
      exact Except.noConfusion hst
    · rw [wroteStateCount_nil]
  · intro st2
    refine ⟨?_, fun _ => ?_, ?_⟩
    · rw [markers_skip_single]
    · rw [markers_skip_single]
    · rw [wroteStateCount_skip_single]
  · intro res w2 t hm hc
    refine ⟨?_, fun _ => ?_, ?_⟩
    · rw [markers_begin_cons, hm]
    · rw [markers_begin_cons, hm]
    · rw [wroteStateCount_begin_cons, hc]

theorem installModules_trace (base : FPath) (man : BundleManifest) :
    ∀ (mods : List ModuleManifest) (st : InstallState) (w : World),
      (markers (installModules base man mods st w).2.2 <+: enabledIds mods) ∧
      ((∃ st2, (installModules base man mods st w).1 = .ok st2) →
        markers (installModules base man mods st w).2.2 = enabledIds mods) ∧
      wroteStateCount (installModules base man mods st w).2.2 = 0 := by
  intro mods
  induction mods with
  | nil =>
    intro st w
    refine ⟨?_, fun _ => ?_, ?_⟩ <;> simp [installModules, enabledIds, markers, wroteStateCount]
  | cons m rest ih =>
    intro st w
    cases he : m.enabled with
    | false =>
      have hloop : installModules base man (m :: rest) st w = installModules base man rest st w := by
        rw [installModules, he]
        simp
      have hids : enabledIds (m :: rest) = enabledIds rest := by
        simp [enabledIds, List.filter_cons, he]
      rw [hloop, hids]
      exact ih st w
    | true =>
      have hids : enabledIds (m :: rest) = m.id :: enabledIds rest := by
        simp [enabledIds, List.filter_cons, he]
      have hloop : installModules base man (m :: rest) st w =
          (match installModuleStep base man m st w with
           | (.error e, w2, t1) => (.error e, w2, t1)
           | (.ok st2, w2, t1) =>
             match installModules base man rest st2 w2 with
             | (res, w3, t2) => (res, w3, t1 ++ t2)) := by
        rw [installModules, he]
        simp
      rw [hloop, hids]
      rcases hstep : installModuleStep base man m st w with ⟨res, w2, t1⟩
      simp only [hstep]
      have hst := installModuleStep_trace base man m st w
      rw [hstep] at hst
      have h1 : markers t1 <+: [m.id] := hst.1
      have h2 : (∃ st2, res = .ok st2) → markers t1 = [m.id] := hst.2.1
      have h3 : wroteStateCount t1 = 0 := hst.2.2
      cases res with
      | error e =>
        refine ⟨?_, ?_, h3⟩
        · exact h1.trans (List.cons_prefix_cons.mpr ⟨rfl, List.nil_prefix⟩)
        · rintro ⟨st2, hco⟩
          exact Except.noConfusion hco
      | ok st2 =>
        have hmk : markers t1 = [m.id] := h2 ⟨st2, rfl⟩
        rcases hrec : installModules base man rest st2 w2 with ⟨res2, w3, t2⟩
        simp only [hrec]
        have ihr := ih st2 w2
        rw [hrec] at ihr
        have ih1 : markers t2 <+: enabledIds rest := ihr.1
        have ih2 : (∃ st3, res2 = .ok st3) → markers t2 = enabledIds rest := ihr.2.1
        have ih3 : wroteStateCount t2 = 0 := ihr.2.2
        refine ⟨?_, ?_, ?_⟩
        · rw [markers_append, hmk]
          exact List.cons_prefix_cons.mpr ⟨rfl, ih1⟩
        · rintro ⟨st3, hco⟩
          rw [markers_append, hmk, ih2 ⟨st3, hco⟩]
          rfl
        · rw [wroteStateCount_append, h3, ih3]

theorem ensure_programdata_layout_trace (w : World) :
    (ensure_programdata_layout w).2.2 = [] := by
  unfold ensure_programdata_layout
  split
  · rfl
  · try dsimp only
    split
    · rfl
    · try dsimp only
      split
      · rfl
      · rfl

theorem install_prereq_dotnet_trace (man : BundleManifest) (base : FPath) (w : World) :
    markers (install_prereq_dotnet man base w).2.2 = [] ∧
    wroteStateCount (install_prereq_dotnet man base w).2.2 = 0 := by
  unfold install_prereq_dotnet
  split
  · split
    · exact ⟨rfl, rfl⟩
    · split
      · exact ⟨rfl, rfl⟩
      · exact run_installer_trace base _ w
    · exact ⟨rfl, rfl⟩
  · exact ⟨rfl, rfl⟩

theorem install_prereq_vcredist_trace (man : BundleManifest) (base : FPath) (w : World) :
    markers (install_prereq_vcredist man base w).2.2 = [] ∧
    wroteStateCount (install_prereq_vcredist man base w).2.2 = 0 := by
  unfold install_prereq_vcredist
  split
  · split
    · exact ⟨rfl, rfl⟩
    · split
      · exact ⟨rfl, rfl⟩
      · exact run_installer_trace base _ w
    · exact ⟨rfl, rfl⟩
  · exact ⟨rfl, rfl⟩

theorem install_prerequisites_trace (man : BundleManifest) (base : FPath) (w : World) :
    markers (install_prerequisites man base w).2.2 = [] ∧
    wroteStateCount (install_prerequisites man base w).2.2 = 0 := by
  unfold install_prerequisites
  rcases hd : install_prereq_dotnet man base w with ⟨res, w1, t1⟩
  try simp only [hd]
  have h1 := install_prereq_dotnet_trace man base w
  rw [hd] at h1
  have h1m : markers t1 = [] := h1.1
  have h1c : wroteStateCount t1 = 0 := h1.2
  cases res with
  | error e => exact ⟨h1m, h1c⟩
  | ok u =>
    rcases hv : install_prereq_vcredist man base w1 with ⟨res2, w2, t2⟩
    try simp only [hv]
    have h2 := install_prereq_vcredist_trace man base w1
    rw [hv] at h2
    have h2m : markers t2 = [] := h2.1
    have h2c : wroteStateCount t2 = 0 := h2.2
    constructor
    · rw [markers_append, h1m, h2m]
      rfl
    · rw [wroteStateCount_append, h1c, h2c]

theorem write_plugins_trace (base : FPath) (man : BundleManifest) (w : World) :
    (write_plugins base man w).2.2 = [] := by
  unfold write_plugins
  split
  · rfl
  · rfl

theorem remove_module_shortcuts_trace :
    ∀ (mods : List ModuleManifest) (w : World),
      (remove_module_shortcuts mods w).2.2 = [] := by
  intro mods
  induction mods with
  | nil => intro w; rfl
  | cons m rest ih =>
    intro w
    rw [remove_module_shortcuts]
    split
    · split
      · rfl
      · exact ih w
    · exact ih w

theorem manage_shortcuts_trace (man : BundleManifest) (st : InstallState) (w : World) :
    (manage_shortcuts man st w).2.2 = [] := by
  unfold manage_shortcuts
  rcases hrm : remove_module_shortcuts man.modules w with ⟨res, w1, t1⟩
  have h1 : t1 = [] := by
    have h2 := remove_module_shortcuts_trace man.modules w
    rw [hrm] at h2
    exact h2
  subst h1
  cases res with
  | error e => rfl
  | ok u =>
    dsimp only
    split
    · rfl
    · split
      · split
        · rfl
        · rfl
      · rfl

theorem add_firewall_rules_trace :
    ∀ (rules : List FirewallRule) (st : InstallState) (w : World),
      (add_firewall_rules rules st w).2.2 = [] := by
  intro rules
  induction rules with
  | nil => intro st w; rfl
  | cons r rest ih =>
    intro st w
    rw [add_firewall_rules]
    split
    · rfl
    · exact ih _ _

theorem install_service_and_firewall_trace (man : BundleManifest) (st : InstallState)
    (w : World) : (install_service_and_firewall man st w).2.2 = [] := by
  unfold install_service_and_firewall
  dsimp only
  split
  · rfl
  · split
    · exact add_firewall_rules_trace _ _ _
    · rfl

theorem persist_state_trace (st : InstallState) (w : World) :
    ((persist_state st w).1 = .ok () → (persist_state st w).2.2 = [Event.wroteState]) ∧
    (∀ e, (persist_state st w).1 = .error e → (persist_state st w).2.2 = []) := by
  unfold persist_state
  cases h : default_state_file w <;> simp [h]

/-- A singleton wroteState trace has no module markers. -/
theorem markers_wrote : markers [Event.wroteState] = [] := rfl

/-- A singleton wroteState trace counts one state write. -/
theorem wroteStateCount_wrote : wroteStateCount [Event.wroteState] = 1 := by decide

/-- C3 theorem (trial): install aborts on the first failing module (the
    markers of the trace form a prefix of the enabled ids, full exactly on
    success) and the state file is written exactly once, as the last event,
    and never on an error path. -/
theorem install_fail_fast_state_once (cli : Cli) (w : World) :
    ((∃ e, (install cli w).1 = .error e) →
      wroteStateCount (install cli w).2.2 = 0 ∧
      (∀ man, load_manifest cli.manifest w = .ok man →
        markers (install cli w).2.2 <+: enabledIds man.modules)) ∧
    ((install cli w).1 = .ok () →
      wroteStateCount (install cli w).2.2 = 1 ∧
      (∃ t, (install cli w).2.2 = t ++ [Event.wroteState] ∧ wroteStateCount t = 0) ∧
      (∀ man, load_manifest cli.manifest w = .ok man →
        markers (install cli w).2.2 = enabledIds man.modules)) := by
  unfold install
  cases hadm : (!allow_non_admin_for_tests w && !w.isAdmin) with
  | true =>
    simp only [if_pos rfl]
    exact ⟨fun _ => ⟨rfl, fun man hman => List.nil_prefix⟩,
           fun hok => Except.noConfusion hok⟩
  | false =>
    simp only [Bool.false_eq_true, if_false]
    cases hman : load_manifest cli.manifest w with
    | error e =>
      exact ⟨fun _ => ⟨rfl, fun man2 hman2 => Except.noConfusion hman2⟩,
             fun hok => Except.noConfusion hok⟩
    | ok man =>
      have hman3 : ∀ man2 : BundleManifest,
          (Except.ok man : Except Err BundleManifest) = Except.ok man2 → man2 = man := by
        intro man2 hman2
        injection hman2 with he
        exact he.symm
      dsimp only
      rcases h1 : ensure_programdata_layout w with ⟨r1, w1, t1⟩
      try simp only [h1]
      have ht1 : t1 = [] := by
        have hx := ensure_programdata_layout_trace w
        rw [h1] at hx
        exact hx
      subst ht1
      cases r1 with
      | error e =>
        exact ⟨fun _ => ⟨rfl, fun man2 hman2 => List.nil_prefix⟩,
               fun hok => Except.noConfusion hok⟩
      | ok u1 =>
        rcases h2 : install_prerequisites man (baseDirOf cli) w1 with ⟨r2, w2, t2⟩
        try simp only [h2]
        have hx2 := install_prerequisites_trace man (baseDirOf cli) w1
        rw [h2] at hx2
        have h2m : markers t2 = [] := hx2.1
        have h2c : wroteStateCount t2 = 0 := hx2.2
        cases r2 with
        | error e =>
          refine ⟨fun _ => ⟨?_, fun man2 hman2 => ?_⟩, fun hok => Except.noConfusion hok⟩
          · simp [wroteStateCount_append, wroteStateCount_nil, h2c]
          · have hm : markers ([] ++ t2) = [] := by
              simp [markers_append, markers_nil, h2m]
            (try dsimp only); rw [hm]
            exact List.nil_prefix
        | ok u2 =>
          rcases h3 : installModules (baseDirOf cli) man man.modules
              (InstallState.new w2.uuid w2.now man.product_code man.version) w2
              with ⟨r3, w3, t3⟩
          try simp only [h3]
          have hx3 := installModules_trace (baseDirOf cli) man man.modules
              (InstallState.new w2.uuid w2.now man.product_code man.version) w2
          rw [h3] at hx3
          have h3p : markers t3 <+: enabledIds man.modules := hx3.1
          have h3e : (∃ st2, r3 = .ok st2) → markers t3 = enabledIds man.modules := hx3.2.1
          have h3c : wroteStateCount t3 = 0 := hx3.2.2
          cases r3 with
          | error e =>
            refine ⟨fun _ => ⟨?_, fun man2 hman2 => ?_⟩, fun hok => Except.noConfusion hok⟩
            · simp [wroteStateCount_append, wroteStateCount_nil, h2c, h3c]
            · have heq := hman3 man2 hman2
              subst heq
              have hm : markers ([] ++ (t2 ++ t3)) = markers t3 := by
                simp [markers_append, markers_nil, h2m]
              exact hm.symm ▸ h3p
          | ok st1 =>
            have h3eq : markers t3 = enabledIds man.modules := h3e ⟨st1, rfl⟩
            rcases h4 : write_plugins (baseDirOf cli) man w3 with ⟨r4, w4, t4⟩
            try simp only [h4]
            have ht4 : t4 = [] := by
              have hx := write_plugins_trace (baseDirOf cli) man w3
              rw [h4] at hx
              exact hx
            subst ht4
            cases r4 with
            | error e =>
              refine ⟨fun _ => ⟨?_, fun man2 hman2 => ?_⟩, fun hok => Except.noConfusion hok⟩
              · simp [wroteStateCount_append, wroteStateCount_nil, h2c, h3c]
              · have heq := hman3 man2 hman2
                subst heq
                have hm : markers ([] ++ t2 ++ t3 ++ []) = markers t3 := by
                  simp [markers_append, markers_nil, h2m]
                exact hm.symm ▸ h3p
            | ok u4 =>
              rcases h5 : manage_shortcuts man st1 w4 with ⟨r5, w5, t5⟩
              try simp only [h5]
              have ht5 : t5 = [] := by
                have hx := manage_shortcuts_trace man st1 w4
                rw [h5] at hx
                exact hx
              subst ht5
              cases r5 with
              | error e =>
                refine ⟨fun _ => ⟨?_, fun man2 hman2 => ?_⟩,
                       fun hok => Except.noConfusion hok⟩
                · simp [wroteStateCount_append, wroteStateCount_nil, h2c, h3c]
                · have heq := hman3 man2 hman2
                  subst heq
                  have hm : markers ([] ++ t2 ++ t3 ++ [] ++ []) = markers t3 := by
                    simp [markers_append, markers_nil, h2m]
                  exact hm.symm ▸ h3p
              | ok st2 =>
                rcases h6 : install_service_and_firewall man st2 w5 with ⟨r6, w6, t6⟩
                try simp only [h6]
                have ht6 : t6 = [] := by
                  have hx := install_service_and_firewall_trace man st2 w5
                  rw [h6] at hx
                  exact hx
                subst ht6
                cases r6 with
                | error e =>
                  refine ⟨fun _ => ⟨?_, fun man2 hman2 => ?_⟩,
                         fun hok => Except.noConfusion hok⟩
                  · simp [wroteStateCount_append, wroteStateCount_nil, h2c, h3c]
                  · have heq := hman3 man2 hman2
                    subst heq
                    have hm : markers ([] ++ t2 ++ t3 ++ [] ++ [] ++ []) = markers t3 := by
                      simp [markers_append, markers_nil, h2m]
                    exact hm.symm ▸ h3p
                | ok st3 =>
                  rcases h7 : persist_state st3 w6 with ⟨r7, w7, t7⟩
                  try simp only [h7]
                  have hx7 := persist_state_trace st3 w6
                  rw [h7] at hx7
                  constructor
                  · rintro ⟨e, he⟩
                    have ht7 : t7 = [] := hx7.2 e he
                    subst ht7
                    refine ⟨?_, fun man2 hman2 => ?_⟩
                    · simp [wroteStateCount_append, wroteStateCount_nil, h2c, h3c]
                    · have heq := hman3 man2 hman2
                      subst heq
                      have hm : markers ([] ++ t2 ++ t3 ++ [] ++ [] ++ [] ++ []) = markers t3 := by
                        simp [markers_append, markers_nil, h2m]
                      exact hm.symm ▸ h3p
                  · intro hok
                    have ht7 : t7 = [Event.wroteState] := hx7.1 hok
                    subst ht7
                    refine ⟨?_, ⟨t2 ++ t3, ?_, ?_⟩, fun man2 hman2 => ?_⟩
                    · simp [wroteStateCount_append, h2c, h3c, wroteStateCount_wrote]
                    · simp
                    · simp [wroteStateCount_append, wroteStateCount_nil, h2c, h3c]
                    · have heq := hman3 man2 hman2
                      subst heq
                      have hm : markers
                          ([] ++ t2 ++ t3 ++ [] ++ [] ++ [] ++ [Event.wroteState])
                          = markers t3 := by
                        simp [markers_append, markers_nil, h2m, markers_wrote]
                      exact hm.trans h3eq

/-- C3 witness (trial): concrete successful install writes the state once and
    visits every enabled module. -/
theorem install_fail_fast_state_once_witness :
    wroteStateCount (install cliA worldB).2.2 = 1 ∧
    markers (install cliA worldB).2.2 = enabledIds manifestB.modules := by
  have h := (install_fail_fast_state_once cliA worldB).2 (by rfl)
  exact ⟨h.1, h.2.2 manifestB (by rfl)⟩

theorem lookup_some_writable (root : FsNode) (p : List String) (n : FsNode)
    (hl : nodeLookup root p = some n) : nodeWritable root p = true := by
  induction p generalizing root with
  | nil => cases root <;> rfl
  | cons c cs ih =>
    cases root with
    | file d => simp [nodeLookup] at hl
    | dir es =>
      cases hf : findEntry es c with
      | some child =>
        simp only [nodeLookup, hf] at hl
        simp [nodeWritable, hf, ih child hl]
      | none => simp [nodeLookup, hf] at hl

theorem nodeWritable_write_sibling_empty (cs : List String) (a b : String) (m : FsNode) :
    nodeWritable (nodeWrite (.dir []) (cs ++ [a]) m) (cs ++ [b]) = true := by
  induction cs with
  | nil =>
    by_cases hab : a = b
    · subst hab
      cases m <;> simp [nodeWrite, setEntry, nodeWritable, findEntry]
    · have hab2 : ¬(a = b) := hab
      simp [nodeWrite, setEntry, nodeWritable, findEntry, hab2]
  | cons c cs' ih =>
    simp [nodeWrite, setEntry, nodeWritable, findEntry, ih]

theorem nodeWritable_write_sibling (root : FsNode) (pre : List String) (a b : String)
    (m : FsNode) (h : nodeWritable root (pre ++ [b]) = true) :
    nodeWritable (nodeWrite root (pre ++ [a]) m) (pre ++ [b]) = true := by
  induction pre generalizing root with
  | nil =>
    cases root with
    | file d => simp [nodeWritable] at h
    | dir es =>
      cases hf : findEntry (setEntry es a m) b with
      | some n => cases n <;> simp [nodeWrite, nodeWritable, hf]
      | none => simp [nodeWrite, nodeWritable, hf]
  | cons c cs ih =>
    cases root with
    | file d => simp [List.cons_append, nodeWritable] at h
    | dir es =>
      cases hf : findEntry es c with
      | some child =>
        simp only [List.cons_append, nodeWritable, hf] at h
        simp [List.cons_append, nodeWrite, nodeWritable, hf, findEntry_setEntry_self,
          ih child h]
      | none =>
        simp [List.cons_append, nodeWrite, nodeWritable, hf, findEntry_setEntry_self,
          nodeWritable_write_sibling_empty cs a b m]

theorem fs_root_setRoot_self (fs : FS) (b : Bool) (n : FsNode) :
    (fs.setRoot b n).root b = n := by
  cases b <;> simp [FS.setRoot, FS.root]

theorem fs_lookup_write_self (fs : FS) (p : FPath) (n : FsNode)
    (hw : nodeWritable (fs.root p.absolute) p.comps = true) :
    (fs.write p n).lookup p = some n := by
  show nodeLookup ((fs.setRoot p.absolute _).root p.absolute) p.comps = some n
  rw [fs_root_setRoot_self]
  exact nodeWrite_self _ _ _ hw

theorem fs_lookup_write_sibling (fs : FS) (pre : FPath) (a b : String) (n : FsNode)
    (hab : a ≠ b) :
    (fs.write (pre.join1 a) n).lookup (pre.join1 b) = fs.lookup (pre.join1 b) := by
  show nodeLookup ((fs.setRoot pre.absolute _).root pre.absolute) (pre.comps ++ [b]) = _
  rw [fs_root_setRoot_self]
  exact nodeWrite_diverge _ _ _ _ (diverge_single pre.comps a b [] hab)

theorem fs_writable_write_sibling (fs : FS) (pre : FPath) (a b : String) (n : FsNode)
    (hw : nodeWritable (fs.root pre.absolute) (pre.comps ++ [b]) = true) :
    nodeWritable ((fs.write (pre.join1 a) n).root pre.absolute) (pre.comps ++ [b]) = true := by
  show nodeWritable ((fs.setRoot pre.absolute _).root pre.absolute) _ = true
  rw [fs_root_setRoot_self]
  exact nodeWritable_write_sibling _ _ _ _ _ hw

/-- Once a plugin artifact sits at a path directly under the plugin dir, the
    rest of the write_plugins loop keeps a plugin artifact there. -/
theorem write_plugins_loop_keeps (plugin_dir : FPath) (mods : List ModuleManifest)
    (w : World) (s : String)
    (h : ∃ x, w.fs.lookup (plugin_dir.join1 s) = some (.file (.pluginJson x))) :
    ∃ x, (write_plugins_loop plugin_dir mods w).fs.lookup (plugin_dir.join1 s)
        = some (.file (.pluginJson x)) := by
  induction mods generalizing w with
  | nil => exact h
  | cons m rest ih =>
    cases he : m.enabled with
    | false =>
      have hstep : write_plugins_loop plugin_dir (m :: rest) w
          = write_plugins_loop plugin_dir rest w := by
        simp [write_plugins_loop, he]
      rw [hstep]
      exact ih w h
    | true =>
      cases hp : m.plugin with
      | none =>
        have hstep : write_plugins_loop plugin_dir (m :: rest) w
            = write_plugins_loop plugin_dir rest w := by
          simp [write_plugins_loop, he, hp]
        rw [hstep]
        exact ih w h
      | some pl2 =>
        have hstep : write_plugins_loop plugin_dir (m :: rest) w
            = write_plugins_loop plugin_dir rest
              { w with fs :=
                  w.fs.write (plugin_dir.join1 (pl2.id ++ jsonExt)) (.file (.pluginJson ⟨pl2, m.id⟩)) } := by
          simp [write_plugins_loop, he, hp]
        rw [hstep]
        apply ih
        rcases h with ⟨x, hx⟩
        by_cases hs : pl2.id ++ jsonExt = s
        · refine ⟨⟨pl2, m.id⟩, ?_⟩
          subst hs
          exact fs_lookup_write_self w.fs _ _ (lookup_some_writable _ _ _ hx)
        · refine ⟨x, ?_⟩
          show (w.fs.write (plugin_dir.join1 (pl2.id ++ jsonExt)) _).lookup
              (plugin_dir.join1 s) = _
          rw [fs_lookup_write_sibling _ _ _ _ _ hs]
          exact hx

/-- Every enabled module with a plugin registration gets a plugin artifact at
    its id-named path by the write_plugins loop, whatever its detection said. -/
theorem write_plugins_loop_writes (plugin_dir : FPath) (mods : List ModuleManifest)
    (w : World) (m : ModuleManifest) (pl : PluginRegistration)
    (hmem : m ∈ mods) (hen : m.enabled = true) (hpl : m.plugin = some pl)
    (hw : nodeWritable (w.fs.root plugin_dir.absolute)
        (pluginFilePath plugin_dir pl).comps = true) :
    ∃ x, (write_plugins_loop plugin_dir mods w).fs.lookup (pluginFilePath plugin_dir pl)
        = some (.file (.pluginJson x)) := by
  induction mods generalizing w with
  | nil => exact absurd hmem (List.not_mem_nil m)
  | cons m0 rest ih =>
    rcases List.mem_cons.mp hmem with hm0 | hrest
    · subst hm0
      have hstep : write_plugins_loop plugin_dir (m :: rest) w
          = write_plugins_loop plugin_dir rest
            { w with fs :=
                w.fs.write (plugin_dir.join1 (pl.id ++ jsonExt)) (.file (.pluginJson ⟨pl, m.id⟩)) } := by
        simp [write_plugins_loop, hen, hpl]
      rw [hstep]
      apply write_plugins_loop_keeps
      refine ⟨⟨pl, m.id⟩, ?_⟩
      exact fs_lookup_write_self w.fs _ _ hw
    · cases he0 : m0.enabled with
      | false =>
        have hstep : write_plugins_loop plugin_dir (m0 :: rest) w
            = write_plugins_loop plugin_dir rest w := by
          simp [write_plugins_loop, he0]
        rw [hstep]
        exact ih w hrest hw
      | true =>
        cases hp0 : m0.plugin with
        | none =>
          have hstep : write_plugins_loop plugin_dir (m0 :: rest) w
              = write_plugins_loop plugin_dir rest w := by
            simp [write_plugins_loop, he0, hp0]
          rw [hstep]
          exact ih w hrest hw
        | some pl0 =>
          have hstep : write_plugins_loop plugin_dir (m0 :: rest) w
              = write_plugins_loop plugin_dir rest
                { w with fs :=
                    w.fs.write (plugin_dir.join1 (pl0.id ++ jsonExt)) (.file (.pluginJson ⟨pl0, m0.id⟩)) } := by
            simp [write_plugins_loop, he0, hp0]
          rw [hstep]
          apply ih _ hrest
          exact fs_writable_write_sibling w.fs plugin_dir _ _ _ hw

/-- C1 (amended): when detection reports true for an enabled module, the
    install loop records an InstalledModule entry with installed = true and no
    install root, performs no installation or configuration (the world is
    unchanged and the trace holds only the skip event); but write_plugins still
    writes the plugin artifact of every enabled module that declares one,
    whether or not it was skipped by detection. -/
theorem detect_true_skips_but_plugin_written :
    (∀ (base : FPath) (man : BundleManifest) (m : ModuleManifest)
        (st : InstallState) (w : World),
      detect_module_installed base m w = .ok true →
      installModuleStep base man m st w =
        (.ok { st with modules := st.modules ++ [skippedEntry m] }, w,
         [.skipModule m.id])) ∧
    (∀ (plugin_dir : FPath) (mods : List ModuleManifest) (w : World)
        (m : ModuleManifest) (pl : PluginRegistration),
      m ∈ mods → m.enabled = true → m.plugin = some pl →
      nodeWritable (w.fs.root plugin_dir.absolute)
          (pluginFilePath plugin_dir pl).comps = true →
      ∃ x, (write_plugins_loop plugin_dir mods w).fs.lookup
          (pluginFilePath plugin_dir pl) = some (.file (.pluginJson x))) := by
  constructor
  · intro base man m st w hdet
    unfold installModuleStep
    rw [hdet]
  · intro plugin_dir mods w m pl hmem hen hpl hw
    exact write_plugins_loop_writes plugin_dir mods w m pl hmem hen hpl hw

/-- C1 counterexample: a run in which the only module is detected as already
    installed (its skip event is in the trace, its entry is recorded without
    an install root) still ends with that module's plugin artifact on disk. -/
theorem skipped_module_plugin_still_written :
    detect_module_installed (baseDirOf cliA) moduleB worldB = .ok true ∧
    (install cliA worldB).1 = .ok () ∧
    Event.skipModule moduleB.id ∈ (install cliA worldB).2.2 ∧
    (install cliA worldB).2.1.fs.lookup pluginBPath
      = some (.file (.pluginJson ⟨pluginB, moduleB.id⟩)) := by
  refine ⟨rfl, rfl, ?_, rfl⟩
  have htr : (install cliA worldB).2.2
      = [Event.skipModule "module_b", Event.wroteState] := rfl
  rw [htr]
  exact List.mem_cons_self _ _

/-- C1 witness: the amended theorem applied to the concrete skipped module. -/
theorem detect_true_skips_but_plugin_written_witness :
    installModuleStep (baseDirOf cliA) manifestB moduleB
        (InstallState.new worldB.uuid worldB.now "p" "0") worldB =
      (.ok { InstallState.new worldB.uuid worldB.now "p" "0" with
                modules := (InstallState.new worldB.uuid worldB.now "p" "0").modules
                  ++ [skippedEntry moduleB] }, worldB,
       [.skipModule moduleB.id]) ∧
    ∃ x, (write_plugins_loop ⟨true, ["C:", "ProgramData", "XiaoHaiAssistant", "plugins"]⟩
        manifestB.modules worldB).fs.lookup
        (pluginFilePath ⟨true, ["C:", "ProgramData", "XiaoHaiAssistant", "plugins"]⟩ pluginB)
      = some (.file (.pluginJson x)) := by
  exact ⟨detect_true_skips_but_plugin_written.1 (baseDirOf cliA) manifestB moduleB
          (InstallState.new worldB.uuid worldB.now "p" "0") worldB rfl,
        detect_true_skips_but_plugin_written.2
          ⟨true, ["C:", "ProgramData", "XiaoHaiAssistant", "plugins"]⟩
          manifestB.modules worldB moduleB pluginB (by simp [manifestB]) rfl rfl (by rfl)⟩

theorem resolve_path_err (base raw : FPath) (e : Err)
    (h : resolve_path base raw = .error e) : e = .emptyPath := by
  unfold resolve_path at h
  split at h
  · injection h with he
    exact he.symm
  · split at h <;> exact Except.noConfusion h

theorem run_installer_err (base : FPath) (inst : PayloadInstaller) (w : World) (e : Err)
    (h : (run_installer base inst w).1 = .error e) : isUninstallerFailure e = true := by
  unfold run_installer at h
  cases hr : resolve_path base inst.path with
  | error e2 =>
    simp only [hr, Except.error.injEq] at h
    subst h
    rw [resolve_path_err base inst.path e2 hr]
    rfl
  | ok exe =>
    simp only [hr] at h
    cases hp : w.runProc exe inst.args with
    | spawnErr =>
      simp only [hp, Except.error.injEq] at h
      subst h
      rfl
    | ran code? so se =>
      simp only [hp] at h
      cases hemp : inst.success_exit_codes.isEmpty with
      | true =>
        by_cases hc : code?.getD (-1) ∈ defaultOkCodes
        · simp [hemp, hc] at h
        · simp [hemp, hc] at h
          rw [← h]
          rfl
      | false =>
        by_cases hc : code?.getD (-1) ∈ inst.success_exit_codes
        · simp [hemp, hc] at h
        · simp [hemp, hc] at h
          rw [← h]
          rfl

theorem uninstallModuleStep_err (base root : FPath) (m : ModuleManifest) (w : World)
    (e : Err) (h : (uninstallModuleStep base root m w).1 = .error e) :
    isUninstallerFailure e = true := by
  unfold uninstallModuleStep at h
  cases hk : m.kind with
  | msi =>
    simp only [hk] at h
    cases hu : m.uninstaller with
    | none => simp [hu] at h
    | some u =>
      simp only [hu] at h
      rcases hri : run_installer base u w with ⟨res, w2, t1⟩
      simp only [hri] at h
      exact run_installer_err base u w e (by rw [hri]; exact h)
  | exe =>
    simp only [hk] at h
    cases hu : m.uninstaller with
    | none => simp [hu] at h
    | some u =>
      simp only [hu] at h
      rcases hri : run_installer base u w with ⟨res, w2, t1⟩
      simp only [hri] at h
      exact run_installer_err base u w e (by rw [hri]; exact h)
  | fileCopy =>
    simp only [hk] at h
    split at h <;> simp at h

theorem uninstallModules_err (base root : FPath) :
    ∀ (mods : List ModuleManifest) (w : World) (e : Err),
      (uninstallModules base root mods w).1 = .error e →
      isUninstallerFailure e = true := by
  intro mods
  induction mods with
  | nil =>
    intro w e h
    simp [uninstallModules] at h
  | cons m rest ih =>
    intro w e h
    unfold uninstallModules at h
    cases hen : m.enabled with
    | false =>
      simp only [hen, Bool.false_eq_true, if_false] at h
      exact ih w e h
    | true =>
      rw [if_pos hen] at h
      rcases hstep : uninstallModuleStep base root m w with ⟨res, w2, t1⟩
      simp only [hstep] at h
      cases res with
      | error e2 =>
        simp only [Except.error.injEq] at h
        subst h
        exact uninstallModuleStep_err base root m w e2 (by rw [hstep])
      | ok u =>
        rcases hrec : uninstallModules base root rest w2 with ⟨res2, w3, t2⟩
        simp only [hrec] at h
        exact ih w2 e (by rw [hrec]; exact h)

theorem program_data_dir_err (w : World) (e : Err)
    (h : program_data_dir w = .error e) : e = .envProgramData := by
  unfold program_data_dir at h
  cases hp : w.programData with
  | some p => rw [hp] at h; exact Except.noConfusion h
  | none =>
    rw [hp] at h
    injection h with he
    exact he.symm

theorem default_state_file_err (w : World) (e : Err)
    (h : default_state_file w = .error e) : e = .envProgramData := by
  unfold default_state_file at h
  cases hp : program_data_dir w with
  | ok p => rw [hp] at h; exact Except.noConfusion h
  | error e2 =>
    rw [hp] at h
    injection h with he
    subst he
    exact program_data_dir_err w _ hp

theorem read_state_file_err (sp : FPath) (w : World) (e : Err)
    (h : read_state_file sp w = .error e) : e = .stateParse := by
  unfold read_state_file at h
  split at h
  · split at h
    · exact Except.noConfusion h
    · injection h with he
      exact he.symm
  · exact Except.noConfusion h

theorem load_manifest_err (p : FPath) (w : World) (e : Err)
    (h : load_manifest p w = .error e) :
    (∃ q, e = .manifestMissing q) ∨ e = .manifestParse := by
  unfold load_manifest at h
  split at h
  · exact Except.noConfusion h
  · injection h with he
    exact Or.inr he.symm
  · injection h with he
    exact Or.inl ⟨p, he.symm⟩

theorem remove_plugins_err (w : World) (e : Err)
    (h : (remove_plugins w).1 = .error e) :
    e = .envProgramData ∨ ∃ q, e = .readDirFailed q := by
  unfold remove_plugins at h
  cases hp : default_plugin_dir w with
  | error e2 =>
    simp only [hp, Except.error.injEq] at h
    subst h
    left
    unfold default_plugin_dir at hp
    cases hq : program_data_dir w with
    | ok q => rw [hq] at hp; exact Except.noConfusion hp
    | error e3 =>
      rw [hq] at hp
      injection hp with he
      subst he
      exact program_data_dir_err w _ hq
  | ok pd =>
    simp only [hp] at h
    split at h
    · split at h
      · simp at h
      · simp only [Except.error.injEq] at h
        subst h
        exact Or.inr ⟨pd, rfl⟩
    · simp at h

/-- C4 theorem: the uninstall module loop can only fail by running a declared
    uninstaller (resolve/spawn/exit-code failures); a native-installer module
    without an uninstaller descriptor is skipped with a warning and succeeds;
    and a whole uninstall run only ever surfaces uninstaller failures or
    errors of the loading/resolution phases (privilege, manifest, ProgramData
    resolution, state-file parse, plugin-dir listing) — never a failure of the
    recorded firewall/autorun/service/shortcut removals, which are swallowed. -/
theorem uninstall_swallows_rollback_failures :
    (∀ (base root : FPath) (mods : List ModuleManifest) (w : World) (e : Err),
      (uninstallModules base root mods w).1 = .error e →
      isUninstallerFailure e = true) ∧
    (∀ (base root : FPath) (m : ModuleManifest) (w : World),
      (m.kind = .msi ∨ m.kind = .exe) → m.uninstaller = none →
      uninstallModuleStep base root m w = (.ok (), w, [.warnNoUninstaller m.id])) ∧
    (∀ (cli : Cli) (w : World) (e : Err),
      (uninstall cli w).1 = .error e →
      isUninstallerFailure e = true ∨ e = .needAdmin ∨
      (∃ p, e = .manifestMissing p) ∨ e = .manifestParse ∨
      e = .envProgramData ∨ e = .stateParse ∨ (∃ p, e = .readDirFailed p)) := by
  refine ⟨uninstallModules_err, ?_, ?_⟩
  · intro base root m w hk hu
    unfold uninstallModuleStep
    rcases hk with hk | hk <;> simp only [hk, hu]
  · intro cli w e h
    unfold uninstall at h
    by_cases hadm : (!allow_non_admin_for_tests w && !w.isAdmin) = true
    · rw [if_pos hadm] at h
      injection h with he
      exact Or.inr (Or.inl he.symm)
    · rw [if_neg hadm] at h
      cases hman : load_manifest cli.manifest w with
      | error e2 =>
        simp only [hman, Except.error.injEq] at h
        subst h
        rcases load_manifest_err cli.manifest w e2 hman with ⟨q, hq⟩ | hq
        · exact Or.inr (Or.inr (Or.inl ⟨q, hq⟩))
        · exact Or.inr (Or.inr (Or.inr (Or.inl hq)))
      | ok man =>
        simp only [hman] at h
        try dsimp only at h
        cases hsp : default_state_file w with
        | error e2 =>
          simp only [hsp, Except.error.injEq] at h
          subst h
          exact Or.inr (Or.inr (Or.inr (Or.inr (Or.inl (default_state_file_err w e2 hsp)))))
        | ok sp =>
          simp only [hsp] at h
          cases hread : read_state_file sp w with
          | error e2 =>
            simp only [hread, Except.error.injEq] at h
            subst h
            exact Or.inr (Or.inr (Or.inr (Or.inr (Or.inr (Or.inl
              (read_state_file_err sp w e2 hread))))))
          | ok stOpt =>
            simp only [hread] at h
            cases stOpt with
            | none =>
              try dsimp only at h
              cases hae : man.autorun.enabled with
              | false =>
                simp only [hae, Bool.false_eq_true, and_false, if_false] at h
                rcases hrp : remove_plugins w with ⟨r3, w3, t3⟩
                simp only [hrp] at h
                cases r3 with
                | error e2 =>
                  simp only [Except.error.injEq] at h
                  subst h
                  rcases remove_plugins_err w e2 (by rw [hrp]) with hq | ⟨q, hq⟩
                  · exact Or.inr (Or.inr (Or.inr (Or.inr (Or.inl hq))))
                  · exact Or.inr (Or.inr (Or.inr (Or.inr (Or.inr (Or.inr ⟨q, hq⟩)))))
                | ok u3 =>
                  rcases hun : uninstallModules (baseDirOf cli) man.install_root
                      man.modules w3 with ⟨r4, w4, t4⟩
                  simp only [hun] at h
                  cases r4 with
                  | error e2 =>
                    simp only [Except.error.injEq] at h
                    subst h
                    exact Or.inl (uninstallModules_err _ _ _ _ e2 (by rw [hun]))
                  | ok u4 =>
                    cases hpd : program_data_dir
                        (removeDirAllIfExists man.install_root w4) with
                    | error e2 =>
                      simp only [hpd, Except.error.injEq] at h
                      subst h
                      exact Or.inr (Or.inr (Or.inr (Or.inr (Or.inl
                        (program_data_dir_err _ e2 hpd)))))
                    | ok dd => simp [hpd] at h
              | true =>
                simp only [hae, and_true, Option.isNone_none, if_pos trivial] at h
                rcases hdel : delete_hklm_run
                    (if man.autorun.name = "" then defaultAutorunName
                     else man.autorun.name) w with ⟨rd, w2, t2⟩
                simp only [hdel] at h
                rcases hrp : remove_plugins w2 with ⟨r3, w3, t3⟩
                simp only [hrp] at h
                cases r3 with
                | error e2 =>
                  simp only [Except.error.injEq] at h
                  subst h
                  rcases remove_plugins_err w2 e2 (by rw [hrp]) with hq | ⟨q, hq⟩
                  · exact Or.inr (Or.inr (Or.inr (Or.inr (Or.inl hq))))
                  · exact Or.inr (Or.inr (Or.inr (Or.inr (Or.inr (Or.inr ⟨q, hq⟩)))))
                | ok u3 =>
                  rcases hun : uninstallModules (baseDirOf cli) man.install_root
                      man.modules w3 with ⟨r4, w4, t4⟩
                  simp only [hun] at h
                  cases r4 with
                  | error e2 =>
                    simp only [Except.error.injEq] at h
                    subst h
                    exact Or.inl (uninstallModules_err _ _ _ _ e2 (by rw [hun]))
                  | ok u4 =>
                    cases hpd : program_data_dir
                        (removeDirAllIfExists man.install_root w4) with
                    | error e2 =>
                      simp only [hpd, Except.error.injEq] at h
                      subst h
                      exact Or.inr (Or.inr (Or.inr (Or.inr (Or.inl
                        (program_data_dir_err _ e2 hpd)))))
                    | ok dd => simp [hpd] at h
            | some st =>
              rcases hrb : rollback_recorded st w with ⟨w1, t1⟩
              simp only [hrb] at h
              simp only [Option.isNone_some, Bool.false_eq_true, false_and, if_false] at h
              rcases hrp : remove_plugins w1 with ⟨r3, w3, t3⟩
              simp only [hrp] at h
              cases r3 with
              | error e2 =>
                simp only [Except.error.injEq] at h
                subst h
                rcases remove_plugins_err w1 e2 (by rw [hrp]) with hq | ⟨q, hq⟩
                · exact Or.inr (Or.inr (Or.inr (Or.inr (Or.inl hq))))
                · exact Or.inr (Or.inr (Or.inr (Or.inr (Or.inr (Or.inr ⟨q, hq⟩)))))
              | ok u3 =>
                rcases hun : uninstallModules (baseDirOf cli) man.install_root
                    man.modules w3 with ⟨r4, w4, t4⟩
                simp only [hun] at h
                cases r4 with
                | error e2 =>
                  simp only [Except.error.injEq] at h
                  subst h
                  exact Or.inl (uninstallModules_err _ _ _ _ e2 (by rw [hun]))
                | ok u4 =>
                  cases hpd : program_data_dir
                      (removeDirAllIfExists man.install_root w4) with
                  | error e2 =>
                    simp only [hpd, Except.error.injEq] at h
                    subst h
                    exact Or.inr (Or.inr (Or.inr (Or.inr (Or.inl
                      (program_data_dir_err _ e2 hpd)))))
                  | ok dd => simp [hpd] at h

/-- C4 witness: the concrete MSI module without an uninstaller is skipped
    with a warning by the uninstall loop body. -/
theorem uninstall_swallows_rollback_failures_witness :
    uninstallModuleStep (baseDirOf cliA) installRootA moduleC worldC
      = (.ok (), worldC, [.warnNoUninstaller moduleC.id]) :=
  uninstall_swallows_rollback_failures.2.1 (baseDirOf cliA) installRootA moduleC worldC
    (Or.inl rfl) rfl

theorem nodeRemove_self_none (p : List String) :
    ∀ (root : FsNode), p ≠ [] → nodeLookup (nodeRemove root p) p = none := by
  induction p with
  | nil => intro root h; exact absurd rfl h
  | cons c cs ih =>
    intro root h
    cases root with
    | file d => cases cs <;> simp [nodeRemove, nodeLookup]
    | dir es =>
      cases cs with
      | nil => simp [nodeRemove, nodeLookup, findEntry_removeEntry]
      | cons c2 cs2 =>
        cases hf : findEntry es c with
        | some child =>
          simp [nodeRemove, nodeLookup, hf, findEntry_setEntry_self,
            ih child (by simp)]
        | none => simp [nodeRemove, nodeLookup, hf]

theorem nodeRemove_notdir (r : List String) :
    ∀ (root : FsNode) (q : List String),
      (∀ es2, nodeLookup root q ≠ some (.dir es2)) →
      ∀ es2, nodeLookup (nodeRemove root r) q ≠ some (.dir es2) := by
  induction r with
  | nil =>
    intro root q h
    cases root <;> exact h
  | cons c cs ih =>
    intro root q h
    cases root with
    | file d =>
      have hr : nodeRemove (.file d) (c :: cs) = .file d := by
        cases cs <;> rfl
      rw [hr]
      exact h
    | dir es =>
      cases q with
      | nil => exact absurd rfl (h es)
      | cons c2 q2 =>
        cases cs with
        | nil =>
          by_cases hc : c2 = c
          · subst hc
            intro es2
            simp [nodeRemove, nodeLookup, findEntry_removeEntry]
          · intro es2
            simp only [nodeRemove, nodeLookup, findEntry_removeEntry, hc, if_false]
            exact h es2
        | cons c3 cs3 =>
          cases hf : findEntry es c with
          | none =>
            intro es2
            simp only [nodeRemove, hf]
            exact h es2
          | some child =>
            by_cases hc : c2 = c
            · subst hc
              have hchild : ∀ es2, nodeLookup child q2 ≠ some (.dir es2) := by
                intro es2 hx
                exact h es2 (by simp [nodeLookup, hf, hx])
              intro es2
              simp only [nodeRemove, hf, nodeLookup, findEntry_setEntry_self]
              exact ih child q2 hchild es2
            · intro es2
              simp only [nodeRemove, hf, nodeLookup, findEntry_setEntry_ne es c c2 _ hc]
              have h2 := h es2
              simp only [nodeLookup] at h2
              exact h2

theorem removeDirAll_not_dir (p : FPath) (w : World) (h : p.comps ≠ []) :
    FS.isDir (removeDirAllIfExists p w).fs p = false := by
  unfold removeDirAllIfExists
  split
  · cases hl : w.fs.lookup p with
    | none => simp [FS.isDir, hl]
    | some n =>
      cases n with
      | file d => simp [FS.isDir, hl]
      | dir es =>
        simp only [hl]
        have h2 : (w.fs.remove p).lookup p = none := by
          show nodeLookup ((w.fs.setRoot p.absolute _).root p.absolute) p.comps = none
          rw [fs_root_setRoot_self]
          exact nodeRemove_self_none p.comps _ h
        simp [FS.isDir, h2]
  · cases hl : w.fs.lookup p with
    | none => simp [FS.isDir, hl]
    | some n =>
      rename_i hex
      exact absurd (by simp [FS.existsPath, hl]) hex

theorem notdir_of_isDir_false (fs : FS) (q : FPath) (h : FS.isDir fs q = false) :
    ∀ es2, fs.lookup q ≠ some (.dir es2) := by
  intro es2 hx
  unfold FS.isDir at h
  rw [hx] at h
  exact Bool.noConfusion h

theorem isDir_false_of_notdir (fs : FS) (q : FPath)
    (h : ∀ es2, fs.lookup q ≠ some (.dir es2)) : FS.isDir fs q = false := by
  unfold FS.isDir
  cases hl : fs.lookup q with
  | none => rfl
  | some n =>
    cases n with
    | file d => rfl
    | dir es => exact absurd hl (h es)

theorem isDir_false_remove_pres (p q : FPath) (w : World)
    (h : FS.isDir w.fs q = false) :
    FS.isDir (removeDirAllIfExists p w).fs q = false := by
  unfold removeDirAllIfExists
  split
  · split
    · apply isDir_false_of_notdir
      by_cases hab : q.absolute = p.absolute
      · intro es2 hx
        have h2 : (w.fs.remove p).lookup q
            = nodeLookup (nodeRemove (w.fs.root p.absolute) p.comps) q.comps := by
          show nodeLookup ((w.fs.setRoot p.absolute _).root q.absolute) q.comps = _
          rw [hab, fs_root_setRoot_self]
        rw [h2] at hx
        have h3 : ∀ es2, nodeLookup (w.fs.root p.absolute) q.comps ≠ some (.dir es2) := by
          intro es3 hy
          exact notdir_of_isDir_false w.fs q h es3 (by rw [← hab] at hy; exact hy)
        exact nodeRemove_notdir p.comps (w.fs.root p.absolute) q.comps h3 es2 hx
      · intro es2 hx
        have h2 : (w.fs.remove p).lookup q = w.fs.lookup q := by
          show nodeLookup ((w.fs.setRoot p.absolute _).root q.absolute) q.comps = _
          have h3 : ∀ (fs : FS) (n : FsNode),
              (fs.setRoot p.absolute n).root q.absolute = fs.root q.absolute := by
            intro fs n
            cases hpa : p.absolute <;> cases hqa : q.absolute <;>
              simp [FS.setRoot, FS.root] <;> simp [hpa, hqa] at hab
          rw [h3]
          rfl
        rw [h2] at hx
        exact notdir_of_isDir_false w.fs q h es2 hx
    · exact h
  · exact h

theorem removeDirAll_programData (p : FPath) (w : World) :
    (removeDirAllIfExists p w).programData = w.programData := by
  unfold removeDirAllIfExists
  split
  · split <;> rfl
  · rfl

theorem program_data_dir_comps (w : World) (dd : FPath)
    (h : program_data_dir w = .ok dd) : dd.comps ≠ [] := by
  unfold program_data_dir at h
  cases hp : w.programData with
  | none => rw [hp] at h; exact Except.noConfusion h
  | some p =>
    rw [hp] at h
    injection h with he
    subst he
    simp [FPath.join1]

/-- C6 theorem: a file-copy module copies its payload to the install root
    joined with install_subdir when given, else with the module id (the copy
    event carries that destination); the recursive copy preserves relative
    structure (every file of the source tree reappears under the destination
    at its relative path); and a successful uninstall leaves no directory at
    the manifest's install root nor at the resolved ProgramData vendor dir. -/
theorem filecopy_dst_structure_roundtrip :
    (∀ (base : FPath) (man : BundleManifest) (m : ModuleManifest)
        (st : InstallState) (w : World) (pl : ModulePayload) (src : FPath) (n : FsNode),
      detect_module_installed base m w = .ok false →
      m.kind = .fileCopy →
      m.payload = some pl →
      resolve_path base pl.path = .ok src →
      w.fs.lookup src = some n →
      Event.copiedTree src (fileCopyDst man.install_root m pl)
        ∈ (installModuleStep base man m st w).2.2) ∧
    (∀ (src dst : FPath) (w : World) (n : FsNode),
      w.fs.lookup src = some n →
      nodeWF n = true →
      nodeWritable (w.fs.root dst.absolute) dst.comps = true →
      nodeLookup (w.fs.root dst.absolute) dst.comps = none →
      ∀ rel d, nodeLookup n rel = some (.file d) →
        (copy_recursively src dst w).2.1.fs.lookup ⟨dst.absolute, dst.comps ++ rel⟩
          = some (.file d)) ∧
    (∀ (cli : Cli) (w : World) (man : BundleManifest),
      load_manifest cli.manifest w = .ok man →
      (uninstall cli w).1 = .ok () →
      man.install_root.comps ≠ [] →
      FS.isDir (uninstall cli w).2.1.fs man.install_root = false ∧
      ∀ dd, program_data_dir (uninstall cli w).2.1 = .ok dd →
        FS.isDir (uninstall cli w).2.1.fs dd = false) := by
  refine ⟨?_, ?_, ?_⟩
  · intro base man m st w pl src n hdet hkind hpl hres hlook
    unfold installModuleStep
    simp only [hdet, hkind, hpl, hres]
    cases hsub : pl.install_subdir with
    | some subdir =>
      have hdst : fileCopyDst man.install_root m pl = man.install_root.join1 subdir := by
        simp [fileCopyDst, hsub]
      rw [hdst]
      simp only [hsub]
      simp only [copy_recursively, hlook]
      split <;> simp
    | none =>
      have hdst : fileCopyDst man.install_root m pl = man.install_root.join1 m.id := by
        simp [fileCopyDst, hsub]
      rw [hdst]
      simp only [hsub]
      simp only [copy_recursively, hlook]
      split <;> simp
  · intro src dst w n hlook hwf hw hnone rel d hrel
    unfold copy_recursively
    simp only [hlook]
    show nodeLookup ((w.fs.setRoot dst.absolute _).root dst.absolute)
        (dst.comps ++ rel) = some (.file d)
    rw [fs_root_setRoot_self]
    exact (copyProps n).1 (w.fs.root dst.absolute) dst.comps hwf hw hnone rel d hrel
  · intro cli w man hman hok hne
    unfold uninstall at hok ⊢
    by_cases hadm : (!allow_non_admin_for_tests w && !w.isAdmin) = true
    · rw [if_pos hadm] at hok
      exact absurd hok (by simp)
    · rw [if_neg hadm] at hok ⊢
      simp only [hman] at hok ⊢
      try dsimp only at hok ⊢
      cases hsp : default_state_file w with
      | error e2 => simp [hsp] at hok
      | ok sp =>
        simp only [hsp] at hok ⊢
        cases hread : read_state_file sp w with
        | error e2 => simp [hread] at hok
        | ok stOpt =>
          simp only [hread] at hok ⊢
          cases stOpt with
          | none =>
            try dsimp only at hok ⊢
            cases hae : man.autorun.enabled with
            | false =>
              simp only [hae, Bool.false_eq_true, and_false, if_false] at hok ⊢
              rcases hrp : remove_plugins w with ⟨r3, w3, t3⟩
              simp only [hrp] at hok ⊢
              cases r3 with
              | error e2 => simp at hok
              | ok u3 =>
                rcases hun : uninstallModules (baseDirOf cli) man.install_root
                    man.modules w3 with ⟨r4, w4, t4⟩
                simp only [hun] at hok ⊢
                cases r4 with
                | error e2 => simp at hok
                | ok u4 =>
                  cases hpd : program_data_dir
                      (removeDirAllIfExists man.install_root w4) with
                  | error e2 => simp [hpd] at hok
                  | ok dd0 =>
                    simp only [hpd]
                    refine ⟨?_, ?_⟩
                    · exact isDir_false_remove_pres _ _ _
                        (removeDirAll_not_dir man.install_root w4 hne)
                    · intro dd hdd
                      have hpd2 : program_data_dir (removeDirAllIfExists dd0
                            (removeDirAllIfExists man.install_root w4))
                          = program_data_dir
                            (removeDirAllIfExists man.install_root w4) := by
                        unfold program_data_dir
                        rw [removeDirAll_programData]
                      rw [hpd2, hpd] at hdd
                      injection hdd with he
                      subst he
                      exact removeDirAll_not_dir dd0 _
                        (program_data_dir_comps _ dd0 hpd)
            | true =>
              simp only [hae, and_true, Option.isNone_none, if_pos trivial] at hok ⊢
              rcases hdel : delete_hklm_run
                  (if man.autorun.name = "" then defaultAutorunName
                   else man.autorun.name) w with ⟨rd, w2, t2⟩
              simp only [hdel] at hok ⊢
              rcases hrp : remove_plugins w2 with ⟨r3, w3, t3⟩
              simp only [hrp] at hok ⊢
              cases r3 with
              | error e2 => simp at hok
              | ok u3 =>
                rcases hun : uninstallModules (baseDirOf cli) man.install_root
                    man.modules w3 with ⟨r4, w4, t4⟩
                simp only [hun] at hok ⊢
                cases r4 with
                | error e2 => simp at hok
                | ok u4 =>
                  cases hpd : program_data_dir
                      (removeDirAllIfExists man.install_root w4) with
                  | error e2 => simp [hpd] at hok
                  | ok dd0 =>
                    simp only [hpd]
                    refine ⟨?_, ?_⟩
                    · exact isDir_false_remove_pres _ _ _
                        (removeDirAll_not_dir man.install_root w4 hne)
                    · intro dd hdd
                      have hpd2 : program_data_dir (removeDirAllIfExists dd0
                            (removeDirAllIfExists man.install_root w4))
                          = program_data_dir
                            (removeDirAllIfExists man.install_root w4) := by
                        unfold program_data_dir
                        rw [removeDirAll_programData]
                      rw [hpd2, hpd] at hdd
                      injection hdd with he
                      subst he
                      exact removeDirAll_not_dir dd0 _
                        (program_data_dir_comps _ dd0 hpd)
          | some st =>
            rcases hrb : rollback_recorded st w with ⟨w1, t1⟩
            simp only [hrb] at hok ⊢
            simp only [Option.isNone_some, Bool.false_eq_true, false_and,
              if_false] at hok ⊢
            rcases hrp : remove_plugins w1 with ⟨r3, w3, t3⟩
            simp only [hrp] at hok ⊢
            cases r3 with
            | error e2 => simp at hok
            | ok u3 =>
              rcases hun : uninstallModules (baseDirOf cli) man.install_root
                  man.modules w3 with ⟨r4, w4, t4⟩
              simp only [hun] at hok ⊢
              cases r4 with
              | error e2 => simp at hok
              | ok u4 =>
                cases hpd : program_data_dir
                    (removeDirAllIfExists man.install_root w4) with
                | error e2 => simp [hpd] at hok
                | ok dd0 =>
                  simp only [hpd]
                  refine ⟨?_, ?_⟩
                  · exact isDir_false_remove_pres _ _ _
                      (removeDirAll_not_dir man.install_root w4 hne)
                  · intro dd hdd
                    have hpd2 : program_data_dir (removeDirAllIfExists dd0
                          (removeDirAllIfExists man.install_root w4))
                        = program_data_dir
                          (removeDirAllIfExists man.install_root w4) := by
                      unfold program_data_dir
                      rw [removeDirAll_programData]
                    rw [hpd2, hpd] at hdd
                    injection hdd with he
                    subst he
                    exact removeDirAll_not_dir dd0 _
                      (program_data_dir_comps _ dd0 hpd)

/-- C6 witness: the concrete file-copy bundle's uninstall leaves no install
    root directory and no ProgramData vendor directory. -/
theorem filecopy_dst_structure_roundtrip_witness :
    FS.isDir (uninstall cliA worldA).2.1.fs manifestA.install_root = false ∧
    ∀ dd, program_data_dir (uninstall cliA worldA).2.1 = .ok dd →
      FS.isDir (uninstall cliA worldA).2.1.fs dd = false :=
  filecopy_dst_structure_roundtrip.2.2 cliA worldA manifestA (by rfl) (by rfl) (by decide)
